import Mathlib

/-!
Verification of the synapse-docs document-parsing and embedding pipeline.

The definitions below are shallow embeddings of the Python services in
`backend/app/services/` (document_parser.py, embedding_service.py,
search_service.py).  Machine floats are idealised as rationals, Python
dicts as association lists, and the external sentence-transformer model
as an abstract encoding function.
-/

/-- Python `str.strip()`: drop leading and trailing whitespace.
(Defined on the character list so that proofs can evaluate it.) -/
def String.pyStrip (s : String) : String :=
  String.mk ((s.data.dropWhile Char.isWhitespace).reverse.dropWhile
    Char.isWhitespace).reverse

/-- Python `str.lower()`: lowercase every character.
(Defined on the character list so that proofs can evaluate it.) -/
def String.pyLower (s : String) : String :=
  String.mk (s.data.map Char.toLower)

set_option maxRecDepth 8192

namespace SynapseDocs

/-- An embedding vector (Python `List[float]`, idealised over ℚ). -/
abbrev Vec := List ℚ

/-! ## search_service.py — `SearchService`

The repository's `SearchService.add_vectors` only logs a warning and
returns `None`; `SearchService.search` logs a warning and returns `[]`.
Neither touches any index state. -/

/-- The (empty) state held by `SearchService`: the class stores no vectors
and no metadata; only an `_initialized` flag exists. -/
structure SearchState where
  initialized : Bool
deriving Repr, DecidableEq

/-- Metadata dictionary attached to a vector (opaque key/value pairs). -/
abbrev Meta := List (String × String)

namespace SearchService

/-- `SearchService.add_vectors`: logs a warning and returns `None`;
the state is unchanged and nothing is stored. -/
def add_vectors (st : SearchState) (_vectors : List Vec) (_metadata : List Meta) :
    SearchState :=
  st

/-- `SearchService.search`: logs a warning and returns the empty list. -/
def search (_st : SearchState) (_queryVector : Vec) (_topK : Nat) :
    List (Meta × ℚ) :=
  []

end SearchService

/-! ## embedding_service.py — thresholds and relevance -/

/-- `EmbeddingService.similarity_threshold` (set in `__init__`). -/
def similarityThreshold : ℚ := 7/10

/-- The effective similarity threshold computed inside
`EmbeddingService.extract_semantic_content` (lines 295–299): with a
caller-supplied `query_threshold` it is `max(query_threshold * 0.8, 0.1)`;
otherwise `min(self.similarity_threshold * 0.4, 0.25)`. -/
def effectiveThreshold (queryThreshold : Option ℚ) : ℚ :=
  match queryThreshold with
  | some t => max (t * (8/10)) (1/10)
  | none => min (similarityThreshold * (4/10)) (25/100)

/-- The candidate-admission test in `extract_semantic_content`
(line 301): a chunk is kept for ranking iff its raw similarity is at
least the effective threshold. -/
def admitsChunk (queryThreshold : Option ℚ) (similarity : ℚ) : Bool :=
  effectiveThreshold queryThreshold ≤ similarity

/-- Chunk metadata consumed by `_calculate_enhanced_relevance`:
the fields read from the metadata dict built in
`extract_semantic_content`. -/
structure ChunkMeta where
  contentQualityScore : ℚ
  chunkType : String
  semanticMarkers : List String
  extractionMethod : String
deriving Repr, DecidableEq

/-- Accumulator pass behind `wordsOf`: scan the characters, closing the
current word at each whitespace character. -/
def splitWsAux : List Char → List Char → List String
  | [], acc => if acc.isEmpty then [] else [String.mk acc.reverse]
  | c :: rest, acc =>
    if c.isWhitespace then
      if acc.isEmpty then splitWsAux rest []
      else String.mk acc.reverse :: splitWsAux rest []
    else splitWsAux rest (c :: acc)

/-- Python `str.split()` semantics: split on whitespace runs, dropping
empty pieces. -/
def wordsOf (s : String) : List String :=
  splitWsAux s.data []

/-- The set of lowercased whitespace-separated words of a string
(`set(text.lower().split())` in Python). -/
def wordSet (s : String) : Finset String :=
  (wordsOf s.pyLower).toFinset

/-- Quality boost in `_calculate_enhanced_relevance`:
`(quality_score - 0.5) * 0.2`. -/
def qualityBoost (m : ChunkMeta) : ℚ :=
  (m.contentQualityScore - 1/2) * (2/10)

/-- Chunk-type boost: `0.1` for `H1`/`H2`, `0.05` for
`introduction`/`summary`, else `0`. -/
def typeBoost (m : ChunkMeta) : ℚ :=
  if m.chunkType = "H1" ∨ m.chunkType = "H2" then 1/10
  else if m.chunkType = "introduction" ∨ m.chunkType = "summary" then 5/100
  else 0

/-- Semantic-marker boost: `len(markers) * 0.02`. -/
def markerBoost (m : ChunkMeta) : ℚ :=
  m.semanticMarkers.length * (2/100)

/-- Keyword-overlap fraction:
`len(query_words ∩ chunk_words) / max(1, len(query_words))`. -/
def keywordOverlap (query chunkText : String) : ℚ :=
  ((wordSet query) ∩ (wordSet chunkText)).card / max 1 (wordSet query).card

/-- Keyword boost: `keyword_overlap * 0.15`. -/
def keywordBoost (query chunkText : String) : ℚ :=
  keywordOverlap query chunkText * (15/100)

/-- Extraction-method boost: `0.1` for `embedded_toc`, `0.05` for
`enhanced_pipeline`, else `0`. -/
def methodBoost (m : ChunkMeta) : ℚ :=
  if m.extractionMethod = "embedded_toc" then 1/10
  else if m.extractionMethod = "enhanced_pipeline" then 5/100
  else 0

/-- `EmbeddingService._calculate_enhanced_relevance` (lines 592–628):
base similarity plus the five boosts, capped at `1.0`. -/
def calculateEnhancedRelevance (similarity : ℚ) (m : ChunkMeta)
    (query chunkText : String) : ℚ :=
  min (similarity + qualityBoost m + typeBoost m + markerBoost m +
    keywordBoost query chunkText + methodBoost m) 1

/-! ## embedding_service.py — caching and batch embedding

The sentence-transformer model is abstracted as `enc : String → Option Vec`
(`none` models `model.encode` raising an exception) and the MD5 content
hash as `hash : String → String`.  `self.embedding_cache` (an
insertion-ordered Python dict) is an association list, oldest first. -/

/-- The zero vector `[0.0] * 384` used for empty text and failed
sub-batches (the all-MiniLM-L6-v2 dimension). -/
def zeroVec : Vec := List.replicate 384 0

/-- `EmbeddingService._preprocess_text`: strip, collapse internal
whitespace to single spaces, and truncate to 512 whitespace-separated
words.  The Python sequence (strip; `' '.join(text.split())`; truncate
the word list at 512) is exactly joining the first 512 words. -/
def preprocessText (text : String) : String :=
  " ".intercalate ((wordsOf text).take 512)

/-- `self.embedding_cache`: insertion-ordered map from text hash to
embedding vector. -/
structure EmbCache where
  entries : List (String × Vec)
deriving Repr, DecidableEq

/-- `self.cache_max_size` (set in `__init__`). -/
def cacheMaxSize : Nat := 10000

/-- Dict lookup `self.embedding_cache[text_hash]` (first matching key). -/
def lookupCache (st : EmbCache) (h : String) : Option Vec :=
  st.entries.lookup h

/-- Dict assignment `self.embedding_cache[text_hash] = embedding`:
overwrite in place if the key exists, else append. -/
def insertEntry : List (String × Vec) → String → Vec → List (String × Vec)
  | [], h, v => [(h, v)]
  | (k, w) :: rest, h, v =>
    if k = h then (k, v) :: rest else (k, w) :: insertEntry rest h v

/-- `EmbeddingService._cache_embedding` (lines 418–426): once the cache
holds `cache_max_size` entries, delete the first (oldest) 100 keys, then
store the new entry. -/
def cacheEmbedding (st : EmbCache) (h : String) (v : Vec) : EmbCache :=
  let entries :=
    if cacheMaxSize ≤ st.entries.length then st.entries.drop 100 else st.entries
  ⟨insertEntry entries h v⟩

section EmbeddingModel

variable (enc : String → Option Vec) (hash : String → String)

/-- `EmbeddingService.create_embedding` (lines 98–136), modelled for a
loaded model: look up the raw text's hash in the cache; on a miss,
preprocess, return the zero vector for blank text (without caching),
otherwise encode, cache under the raw text's hash, and return the
vector.  An encode exception returns `[]`. -/
def createEmbedding (st : EmbCache) (text : String) : Vec × EmbCache :=
  let h := hash text
  match lookupCache st h with
  | some v => (v, st)
  | none =>
    let processed := preprocessText text
    if processed.pyStrip = "" then (zeroVec, st)
    else
      match enc processed with
      | some v => (v, cacheEmbedding st h v)
      | none => ([], st)

/-- Elementwise model of one `model.encode(uncached_texts, ...)` call:
every text is encoded in order, and a failure anywhere fails the whole
call (the Python exception). -/
def encodeAll : List String → Option (List Vec)
  | [] => some []
  | t :: rest =>
    match enc t, encodeAll rest with
    | some v, some vs => some (v :: vs)
    | _, _ => none

/-- Second phase of `_process_embedding_batch`: replace the `None`
placeholders of uncached texts by the freshly encoded vectors, in
order. -/
def fillUncached : List (Option Vec) → List Vec → List Vec
  | [], _ => []
  | some v :: rest, vs => v :: fillUncached rest vs
  | none :: rest, v :: vs => v :: fillUncached rest vs
  | none :: rest, [] => [] :: fillUncached rest []

/-- `EmbeddingService._process_embedding_batch` (lines 180–229): collect
cache hits and placeholders, encode the uncached texts (preprocessed) in
one call, fill the placeholders and cache each new vector under its raw
text's hash.  An encode exception returns `([], st)` unchanged. -/
def processEmbeddingBatch (st : EmbCache) (texts : List String) :
    List Vec × EmbCache :=
  let cached : List (Option Vec) := texts.map (fun t => lookupCache st (hash t))
  let uncachedTexts : List String :=
    texts.filter (fun t => (lookupCache st (hash t)).isNone)
  match encodeAll enc (uncachedTexts.map preprocessText) with
  | none => ([], st)
  | some batchEmbeddings =>
    let st' := (uncachedTexts.zip batchEmbeddings).foldl
      (fun s tv => cacheEmbedding s (hash tv.1) tv.2) st
    (fillUncached cached batchEmbeddings, st')

/-- The sub-batch loop of `create_embeddings_batch`
(`for i in range(0, len(texts), sub_batch_size)` with
`sub_batch_size = 50`): process 50 texts, then the rest; a failed
sub-batch contributes one zero vector per text. -/
def batchGo (st : EmbCache) (texts : List String) : List Vec × EmbCache :=
  if texts.isEmpty then ([], st)
  else
    let sub := texts.take 50
    let res := processEmbeddingBatch enc hash st sub
    let rest := batchGo res.2 (texts.drop 50)
    (if res.1 = [] then List.replicate sub.length zeroVec ++ rest.1
     else res.1 ++ rest.1, rest.2)
termination_by texts.length
decreasing_by
  rename_i h
  have hne : texts ≠ [] := by
    intro hnil
    exact h (by simp [hnil])
  have := List.length_pos.mpr hne
  simp only [List.length_drop]
  omega

/-- `EmbeddingService.create_embeddings_batch` (lines 138–178), modelled
for a loaded model: more than 100 texts are processed in sub-batches of
50, otherwise in a single batch. -/
def createEmbeddingsBatch (st : EmbCache) (texts : List String) :
    List Vec × EmbCache :=
  if 100 < texts.length then batchGo enc hash st texts
  else processEmbeddingBatch enc hash st texts

/-- The vector the model assigns to a text after preprocessing. -/
def encVec (t : String) : Vec := (enc (preprocessText t)).getD []

/-- Cache well-formedness: every cached entry was produced by a
successful encoding of some text, stored under that text's hash. -/
def CacheInv (st : EmbCache) : Prop :=
  ∀ p ∈ st.entries, ∃ t, p.1 = hash t ∧ enc (preprocessText t) = some p.2

/-- The sub-batch of 50 texts that position `i` falls into. -/
def subBatch (texts : List String) (i : Nat) : List String :=
  (texts.drop (50 * (i / 50))).take 50

end EmbeddingModel

/-! ## document_parser.py — multi-column detection -/

/-- A positioned text run (span) as extracted per page: the fields of the
`text_block` dicts built in `_extract_page_data` that layout analysis
reads. -/
structure Block where
  text : String
  x0 : ℚ
  y0 : ℚ
  x1 : ℚ
  y1 : ℚ
  pageHeight : ℚ
  pageNum : Nat
deriving Repr, DecidableEq

/-- `DocumentParser._detect_multi_column_layout` (lines 264–279): with
fewer than 10 blocks the page is single-column; otherwise the page is
multi-column iff more than 20% of blocks start left of
`page_center - 50` and more than 20% start right of
`page_center + 50`. -/
def detectMultiColumnLayout (textBlocks : List Block) (pageWidth : ℚ) : Bool :=
  if textBlocks.length < 10 then false
  else
    let pageCenter := pageWidth / 2
    let leftBlocks := (textBlocks.filter (fun b => b.x0 < pageCenter - 50)).length
    let rightBlocks := (textBlocks.filter (fun b => b.x0 > pageCenter + 50)).length
    let totalBlocks := textBlocks.length
    decide ((leftBlocks : ℚ) / totalBlocks > 2/10 ∧ (rightBlocks : ℚ) / totalBlocks > 2/10)

/-- `DocumentParser._is_multi_column_page` (lines 436–455): with fewer
than 10 blocks the page is single-column; otherwise counts blocks whose
horizontal centre is left of `0.8 * center_x` resp. right of
`1.2 * center_x` and requires both counts to exceed 20% of all
blocks. -/
def isMultiColumnPage (textBlocks : List Block) (pageWidth : ℚ) : Bool :=
  if textBlocks.length < 10 then false
  else
    let centerX := pageWidth / 2
    let leftBlocks := (textBlocks.filter
      (fun b => (b.x0 + b.x1) / 2 < centerX * (8/10))).length
    let rightBlocks := (textBlocks.filter
      (fun b => (b.x0 + b.x1) / 2 > centerX * (12/10))).length
    let totalBlocks := textBlocks.length
    decide ((leftBlocks : ℚ) > (totalBlocks : ℚ) * (2/10) ∧
      (rightBlocks : ℚ) > (totalBlocks : ℚ) * (2/10))

/-- A per-page record of the `pages_data` dicts: page number, page
dimensions and the page's text blocks. -/
structure PageData where
  pageNum : Nat
  pageWidth : ℚ
  pageHeight : ℚ
  blocks : List Block
deriving Repr, DecidableEq

/-! ## document_parser.py — `_filter_headers_footers` (lines 353–411) -/

/-- Candidate test: the block's top is in the top 15% of the page or its
bottom is in the bottom 15% (ratios default to 0 for non-positive page
height, exactly as in the code). -/
def isHeaderFooterCandidate (b : Block) : Bool :=
  let yTopRatio := if 0 < b.pageHeight then b.y0 / b.pageHeight else 0
  let yBottomRatio := if 0 < b.pageHeight then b.y1 / b.pageHeight else 0
  decide (yTopRatio < 15/100 ∨ 85/100 < yBottomRatio)

/-- The normalised key under which candidate texts are counted and
matched: stripped and lowercased.  (The code strips, lowercases and
strips again on one side and strips then lowercases on the other; since
lowercasing never creates or removes whitespace the two agree.) -/
def normKey (s : String) : String := s.pyStrip.pyLower

/-- The stream of counted candidate keys: every candidate block's
normalised text, kept only when longer than 3 characters. -/
def countedKeys (pages : List PageData) : List String :=
  ((pages.flatMap fun pg => pg.blocks.filter isHeaderFooterCandidate).map
    (fun b => normKey b.text)).filter (fun s => 3 < s.length)

/-- Number of candidate-block occurrences of a normalised text. -/
def candFreq (pages : List PageData) (t : String) : Nat :=
  (countedKeys pages).count t

/-- The recurrence threshold `max(2, int(total_pages * 0.4))`. -/
def recurThreshold (pages : List PageData) : Nat :=
  max 2 (2 * pages.length / 5)

/-- Membership in the `recurring_texts` set. -/
def isRecurringText (pages : List PageData) (t : String) : Bool :=
  recurThreshold pages ≤ candFreq pages t

/-- `DocumentParser._filter_headers_footers`: with fewer than 2 pages the
input is returned unchanged; otherwise every block (anywhere on any
page) whose normalised text is recurring is removed. -/
def filterHeadersFooters (pages : List PageData) : List PageData :=
  if pages.length < 2 then pages
  else pages.map fun pg =>
    { pg with blocks := pg.blocks.filter fun b => ¬ isRecurringText pages (normKey b.text) }

/-! ## document_parser.py — rule-based classification (lines 900–1014) -/

/-- Features of one text line, as read by `_classify_line_rule_based`
from the per-line feature dict built in `_extract_line_features`. -/
structure LineFeatures where
  text : String
  relativeFontSize : ℚ
  fontSizeRank : Nat
  isBold : Bool
  isCentered : Bool
  spaceBeforeRatio : ℚ
  hasNumericPrefix : Bool
  isChapterHeading : Bool
  isAppendix : Bool
  endsWithPunct : Bool
  charCount : Nat
deriving Repr, DecidableEq

/-- `re.match(r'^\s*\d+[\.)\s]*$', text)`: optional whitespace, at least
one digit, then only dots, closing parens and whitespace. -/
def isBareNumber (s : String) : Bool :=
  let cs := s.data.dropWhile Char.isWhitespace
  let ds := cs.takeWhile Char.isDigit
  let rest := cs.dropWhile Char.isDigit
  !ds.isEmpty && rest.all fun c => c = '.' || c = ')' || c.isWhitespace

/-- Fuel-driven scan for `countDotGroups`.  Each step consumes at least
the dot character, so fuel equal to the list length always suffices. -/
def countDotGroupsGo : Nat → List Char → Nat
  | 0, _ => 0
  | fuel + 1, cs =>
    match cs with
    | '.' :: rest =>
      if (rest.takeWhile Char.isDigit).isEmpty then 0
      else 1 + countDotGroupsGo fuel (rest.dropWhile Char.isDigit)
    | _ => 0

/-- Number of `.digits` groups following the leading digit run, for the
regex `^\s*(\d+(?:\.\d+)*)` of `_determine_heading_level`. -/
def countDotGroups (cs : List Char) : Nat :=
  countDotGroupsGo cs.length cs

/-- Depth of the numeric prefix matched by `^\s*(\d+(?:\.\d+)*)`:
`none` when there is no leading digit, otherwise the number of
dot-separated parts. -/
def numericDepth (s : String) : Option Nat :=
  let cs := s.data.dropWhile Char.isWhitespace
  if (cs.takeWhile Char.isDigit).isEmpty then none
  else some (1 + countDotGroups (cs.dropWhile Char.isDigit))

/-- Tail test for the regex fragment `:?\s*$`: an optional colon
followed by whitespace. -/
def colonWsTail (q : List Char) : Bool :=
  q.all Char.isWhitespace ||
    (match q with
     | ':' :: q' => q'.all Char.isWhitespace
     | _ => false)

/-- `re.match(r'^\d+\.\s+[A-Z][^.]*:?\s*$', text)`, expressed through an
explicit split of the suffix into the `[^.]*` part and the
`:?\s*` tail. -/
def formPattern1 (s : String) : Bool :=
  let cs := s.data
  let ds := cs.takeWhile Char.isDigit
  !ds.isEmpty &&
    match cs.dropWhile Char.isDigit with
    | '.' :: r2 =>
      let ws := r2.takeWhile Char.isWhitespace
      !ws.isEmpty &&
        (match r2.dropWhile Char.isWhitespace with
         | u :: rest =>
           ('A' ≤ u && u ≤ 'Z') &&
             (List.range (rest.length + 1)).any fun i =>
               (rest.take i).all (fun c => c ≠ '.') && colonWsTail (rest.drop i)
         | [] => false)
    | _ => false

/-- `re.match(r'^\d+\.\s+[A-Z][a-z\s]{2,15}:?\s*$', text)`, likewise via
an explicit split: between 2 and 15 lowercase/whitespace characters and
then the `:?\s*` tail. -/
def formPattern2 (s : String) : Bool :=
  let cs := s.data
  let ds := cs.takeWhile Char.isDigit
  !ds.isEmpty &&
    match cs.dropWhile Char.isDigit with
    | '.' :: r2 =>
      let ws := r2.takeWhile Char.isWhitespace
      !ws.isEmpty &&
        (match r2.dropWhile Char.isWhitespace with
         | u :: rest =>
           ('A' ≤ u && u ≤ 'Z') &&
             (List.range (rest.length + 1)).any fun i =>
               (2 ≤ i && i ≤ 15) &&
                 (rest.take i).all (fun c => ('a' ≤ c && c ≤ 'z') || c.isWhitespace) &&
                 colonWsTail (rest.drop i)
         | [] => false)
    | _ => false

/-- Substring test (`needle in hay` on Python strings). -/
def containsSeq (needle hay : List Char) : Bool :=
  (List.range (hay.length + 1)).any fun i => needle.isPrefixOf (hay.drop i)

/-- `DocumentParser._is_likely_form_field` (lines 972–989): the two form
regexes, or a short text containing a form keyword. -/
def isLikelyFormField (text : String) : Bool :=
  formPattern1 text || formPattern2 text ||
    ((["name", "address", "phone", "email", "date", "signature"].any fun kw =>
        containsSeq kw.data text.pyLower.data) && text.length < 50)

/-- The accumulated `heading_score` of `_classify_line_rule_based`
(lines 912–962), summed over the weighted signals in code order. -/
def headingScore (f : LineFeatures) : Int :=
  (if f.relativeFontSize ≥ mkRat 15 10 then 4
   else if f.relativeFontSize ≥ mkRat 13 10 then 3
   else if f.relativeFontSize ≥ mkRat 11 10 then 1 else 0)
  + (if f.fontSizeRank ≤ 2 then 3 else if f.fontSizeRank ≤ 3 then 2 else 0)
  + (if f.isBold then 3 else 0)
  + (if f.isCentered then 2 else 0)
  + (if f.spaceBeforeRatio ≥ 2 then 3
     else if f.spaceBeforeRatio ≥ mkRat 15 10 then 2 else 0)
  + (if f.hasNumericPrefix then
       (if isLikelyFormField f.text.pyStrip then -2 else 4) else 0)
  + (if f.isChapterHeading then 4 else 0)
  + (if f.isAppendix then 3 else 0)
  + (if f.endsWithPunct then 0 else 1)
  + (if 5 ≤ f.charCount ∧ f.charCount ≤ 80 then 1
     else if 150 < f.charCount then -2 else 0)

/-- `DocumentParser._determine_heading_level` (lines 991–1014).  Note
that the `default` parameter is accepted but never read by the body:
the level comes from the numeric-prefix depth when present, otherwise
from the font-size/centering tiers, with a final fallback of `H3`. -/
def determineHeadingLevel (f : LineFeatures) (defaultLevel : String := "H2") : String :=
  match numericDepth f.text with
  | some 1 => "H1"
  | some 2 => "H2"
  | some _ => "H3"
  | none =>
    if f.relativeFontSize ≥ mkRat 18 10 ∨ f.fontSizeRank = 1 ∨ f.isCentered then "H1"
    else if f.relativeFontSize ≥ mkRat 14 10 ∨ f.fontSizeRank ≤ 2 then "H2"
    else "H3"

/-- `DocumentParser._classify_line_rule_based` (lines 900–970):
guard paragraphs (blank, longer than `MAX_TITLE_LENGTH = 200`, at most
3 characters, or a bare page number), then classify by the heading
score with thresholds `MIN_HEADING_SCORE = 8` and 6. -/
def classifyLineRuleBased (f : LineFeatures) : String :=
  let text := f.text.pyStrip
  if text = "" ∨ 200 < text.length then "P"
  else if text.length ≤ 3 then "P"
  else if isBareNumber text then "P"
  else if 8 ≤ headingScore f then determineHeadingLevel f
  else if 6 ≤ headingScore f then determineHeadingLevel f "H3"
  else "P"

/-! ## document_parser.py — chunks, the embedded-ToC fast path, and
post-processing -/

/-- A text chunk dict as produced by the extraction paths.  Optional
fields model keys that some paths leave out of the dict. -/
structure Chunk where
  pageNumber : Int
  text : String
  sectionTitle : Option String := none
  chunkType : Option String := none
  extractionMethod : Option String := none
  contentQualityScore : Option ℚ := none
  semanticMarkers : Option (List String) := none
deriving Repr, DecidableEq

/-- One entry of an embedded outline as returned by `doc.get_toc()`:
`(level, title, page)` with a 1-based start page. -/
structure TocEntry where
  level : Nat
  title : String
  page : Int
deriving Repr, DecidableEq

instance : Inhabited TocEntry := ⟨⟨0, "", 0⟩⟩

/-- The document as seen by the parser: the plain text of each page
(`page.get_text()`), the embedded outline (empty when absent), and the
structured per-page runs used by the general pipeline. -/
structure PdfDoc where
  pageText : List String
  toc : List TocEntry
  pages : List PageData
deriving Repr, DecidableEq

/-- Integer half-open range `[a, b)` (Python `range`). -/
def intRange (a b : Int) : List Int :=
  (List.range (b - a).toNat).map fun (k : Nat) => a + (k : Int)

/-- The section end page computed for outline entry `i`
(`end_page` in `_extract_chunks_from_toc`): the next entry's start page
minus one, or `len(doc) - 1` for the last entry. -/
def tocEndPage (doc : PdfDoc) (toc : List TocEntry) (i : Nat) : Int :=
  if i + 1 < toc.length then (toc.getD (i + 1) default).page - 1
  else (doc.pageText.length : Int) - 1

/-- The text gathered for outline entry `i`: page text plus a newline
over `range(page_num - 1, min(end_page, len(doc)))`, guarded by
`p >= 0`. -/
def tocSectionText (doc : PdfDoc) (toc : List TocEntry) (i : Nat) : String :=
  match toc.get? i with
  | none => ""
  | some e =>
    ((intRange (e.page - 1) (min (tocEndPage doc toc i)
        (doc.pageText.length : Int))).filter (fun p => 0 ≤ p)).foldl
      (fun acc p => acc ++ doc.pageText.getD p.toNat "" ++ "\n") ""

/-- The chunk produced for outline entry `i` by the loop body of
`_extract_chunks_from_toc` (lines 1403–1424); the entry is skipped when
its gathered text is blank. -/
def entryChunk (doc : PdfDoc) (toc : List TocEntry) (i : Nat) : Option Chunk :=
  match toc.get? i with
  | none => none
  | some e =>
    if (tocSectionText doc toc i).pyStrip = "" then none
    else some
      { pageNumber := e.page - 1
        text := (tocSectionText doc toc i).pyStrip
        sectionTitle := some e.title
        chunkType := some ("H" ++ toString (min e.level 3))
        extractionMethod := some "embedded_toc" }

/-- `DocumentParser._extract_chunks_from_toc` (lines 1397–1431). -/
def extractChunksFromToc (doc : PdfDoc) (toc : List TocEntry) : List Chunk :=
  (List.range toc.length).filterMap (entryChunk doc toc)

/-- Replace each maximal run of characters satisfying `p` by the single
character `r` (one `re.sub` pass such as `\s+` → `' '`). -/
def collapseRuns (p : Char → Bool) (r : Char) : List Char → List Char
  | [] => []
  | c :: rest =>
    if p c then r :: collapseRuns p r (rest.dropWhile p)
    else c :: collapseRuns p r rest
termination_by cs => cs.length
decreasing_by
  · simp only [List.length_cons]
    have := (List.dropWhile_sublist (l := rest) (p := p)).length_le
    omega
  · simp

/-- `DocumentParser._clean_text_content` (lines 1787–1803): collapse
whitespace runs, drop null bytes, blank out non-printable characters,
re-collapse newlines and spaces/tabs, and strip. -/
def cleanTextContent (text : String) : String :=
  if text = "" then ""
  else
    let s1 := collapseRuns Char.isWhitespace ' ' text.data
    let s2 := s1.filter fun c => c ≠ Char.ofNat 0
    let s3 := s2.map fun c =>
      if (' ' ≤ c && c ≤ '~') || c = '\n' || c = '\r' || c = '\t' then c else ' '
    let s4 := collapseRuns (fun c => c = '\n') '\n' s3
    let s5 := collapseRuns (fun c => c = ' ' || c = '\t') ' ' s4
    (String.mk s5).pyStrip

/-- `DocumentParser._calculate_content_quality` (lines 1805–1833). -/
def calculateContentQuality (text : String) : ℚ :=
  if text = "" then 0
  else
    let length := text.length
    let lengthScore : ℚ :=
      if 100 ≤ length ∧ length ≤ 1000 then 1
      else if 50 ≤ length ∧ length < 2000 then 1/2 else 0
    let sentences := text.data.count '.' + text.data.count '!' + text.data.count '?'
    let sentenceScore : ℚ :=
      if 0 < sentences then min ((sentences : ℚ) * (1/10)) (1/2) else 0
    let varietyScore : ℚ :=
      if 10 < (wordsOf text.pyLower).toFinset.card then 3/10 else 0
    let uniqueRatio : ℚ :=
      ((wordsOf text).toFinset.card : ℚ) / max 1 (wordsOf text).length
    min (lengthScore + sentenceScore + varietyScore + uniqueRatio * (2/10)) 2

/-- Python's `\w` word-character class (simplified to ASCII-alphanumeric
plus underscore). -/
def isWordChar (c : Char) : Bool := c.isAlphanum || c = '_'

/-- `re.search(r'\b<word>\b', text, re.IGNORECASE)` for a single
lowercase word: the word occurs with non-word characters (or the text
boundary) on both sides. -/
def containsWordCI (w : String) (text : String) : Bool :=
  let hay := text.pyLower.data
  let nee := w.data
  (List.range (hay.length + 1)).any fun i =>
    nee.isPrefixOf (hay.drop i) &&
      (i = 0 || !isWordChar (hay.getD (i - 1) ' ')) &&
      (decide (hay.length ≤ i + nee.length) || !isWordChar (hay.getD (i + nee.length) ' '))

/-- `re.search(r'\b(a|b|...)\b', text, re.IGNORECASE)`. -/
def containsAnyWordCI (ws : List String) (text : String) : Bool :=
  ws.any fun w => containsWordCI w text

/-- `DocumentParser._extract_semantic_markers` (lines 1835–1858). -/
def extractSemanticMarkers (text : String) : List String :=
  (if containsAnyWordCI ["introduction", "overview", "summary"] text
   then ["introductory"] else []) ++
  (if containsAnyWordCI ["conclusion", "summary", "final"] text
   then ["conclusive"] else []) ++
  (if containsAnyWordCI ["method", "approach", "process"] text
   then ["methodological"] else []) ++
  (if containsAnyWordCI ["result", "finding", "outcome"] text
   then ["results"] else []) ++
  (if containsAnyWordCI ["table", "figure", "chart", "graph"] text
   then ["visual_reference"] else []) ++
  (if containsAnyWordCI ["algorithm", "formula", "equation"] text
   then ["technical"] else [])

/-- Substring test on strings (Python `in`). -/
def containsSubstring (needle hay : String) : Bool :=
  containsSeq needle.data hay.data

/-- The sort key ordering of `_post_process_chunks` line 1553:
ascending page number, then descending quality (stable). -/
def chunkOrder (a b : Chunk) : Bool :=
  decide (a.pageNumber < b.pageNumber ∨
    (a.pageNumber = b.pageNumber ∧
      b.contentQualityScore.getD 0 ≤ a.contentQualityScore.getD 0))

/-- The loop body of `DocumentParser._post_process_chunks`
(lines 1517–1555): clean the chunk's text, prepend the section title
when it is not already in the first 100 characters, drop the chunk if
its stripped text is shorter than 50 characters, and attach quality
score and semantic markers. -/
def postProcessOne (chunk : Chunk) : Option Chunk :=
  let cleaned := cleanTextContent chunk.text
  let text :=
    match chunk.sectionTitle with
    | some title =>
      if title ≠ "" ∧ ¬ containsSubstring title (cleaned.take 100) = true
      then "[" ++ title ++ "]\n\n" ++ cleaned else cleaned
    | none => cleaned
  if text.pyStrip.length < 50 then none
  else some
    { pageNumber := chunk.pageNumber
      text := text
      sectionTitle := some (chunk.sectionTitle.getD "Untitled Section")
      chunkType := some (chunk.chunkType.getD "content")
      extractionMethod := some (chunk.extractionMethod.getD "enhanced_pipeline")
      contentQualityScore := some (calculateContentQuality text)
      semanticMarkers := some (extractSemanticMarkers text) }

/-- The loop and final sort of `_post_process_chunks`. -/
def postProcessChunks (chunks : List Chunk) : List Chunk :=
  if chunks.isEmpty then chunks
  else (chunks.filterMap postProcessOne).mergeSort chunkOrder

/-! ## document_parser.py — the general chunk builder and fallbacks -/

/-- The `current_section` accumulator of `_build_enhanced_text_chunks`.
Content items are `(text, page)` pairs (the stored feature dict of each
item is never read again). -/
structure Section where
  title : String
  content : List (String × Nat)
  startPage : Nat
  headingLevel : Option String
deriving Repr, DecidableEq

/-- First key of each distinct page in order of first occurrence
(Python dict key order for `page_content_lengths`). -/
def firstOccur : List Nat → List Nat
  | [] => []
  | p :: rest => p :: firstOccur (rest.filter (· ≠ p))
termination_by l => l.length
decreasing_by
  simp only [List.length_cons]
  have := List.length_filter_le (· ≠ p) rest
  omega

/-- First key attaining the maximal value (Python `max(items, key=...)`
keeps the earliest maximum). -/
def argmaxFirst (keys : List Nat) (val : Nat → Nat) : Option Nat :=
  keys.foldl
    (fun best k =>
      match best with
      | none => some k
      | some b => if val b < val k then some k else best)
    none

/-- `DocumentParser._finalize_section_chunk` (lines 1710–1740): join the
section's item texts, require at least 30 stripped characters, and pick
as page number the page contributing the most stripped text. -/
def finalizeSectionChunk (sec : Section) : Option Chunk :=
  if sec.content.isEmpty then none
  else
    let contentText :=
      " ".intercalate ((sec.content.filter fun it => it.1.pyStrip ≠ "").map (·.1))
    if contentText.pyStrip.length < 30 then none
    else
      let contributing := sec.content.filter fun it => it.1.pyStrip ≠ ""
      let pageLen : Nat → Nat := fun p =>
        ((contributing.filter fun it => it.2 = p).map fun it => it.1.pyStrip.length).sum
      let primaryPage :=
        (argmaxFirst (firstOccur (contributing.map (·.2))) pageLen).getD sec.startPage
      some
        { pageNumber := (primaryPage : Int)
          text := contentText
          sectionTitle := some
            (if sec.title ≠ "" then sec.title
             else "Section starting at page " ++ toString (sec.startPage + 1))
          chunkType := some (sec.headingLevel.getD "content")
          extractionMethod := some "enhanced_pipeline" }

/-- `DocumentParser._create_page_chunk` (lines 1742–1762). -/
def createPageChunk (sec : Section) (pageIdx : Nat) : Option Chunk :=
  if sec.content.isEmpty then none
  else
    let pageContent := sec.content.filter fun it => it.2 = pageIdx
    if pageContent.isEmpty then none
    else
      let contentText :=
        " ".intercalate ((pageContent.filter fun it => it.1.pyStrip ≠ "").map (·.1))
      if contentText.pyStrip.length < 30 then none
      else some
        { pageNumber := (pageIdx : Int)
          text := contentText
          sectionTitle := some (sec.title ++ " (Page " ++ toString (pageIdx + 1) ++ ")")
          chunkType := some "page_section"
          extractionMethod := some "enhanced_pipeline" }

/-- The inner line loop of `_build_enhanced_text_chunks` (lines
1470–1498): skip blank/short lines, close and restart the section at a
heading, and otherwise accumulate content. -/
def lineLoop (pageIdx : Nat) (sec : Section) :
    List (LineFeatures × String) → List Chunk × Section
  | [] => ([], sec)
  | (f, cls) :: rest =>
    let text := f.text.pyStrip
    if text = "" ∨ text.length < 3 then lineLoop pageIdx sec rest
    else if cls.startsWith "H" then
      let emitted :=
        if sec.content.isEmpty then []
        else (finalizeSectionChunk sec).toList
      let sec' : Section :=
        { title := text, content := [], startPage := pageIdx, headingLevel := some cls }
      let res := lineLoop pageIdx sec' rest
      (emitted ++ res.1, res.2)
    else
      lineLoop pageIdx { sec with content := sec.content ++ [(text, pageIdx)] } rest

/-- The page loop of `_build_enhanced_text_chunks` (lines 1465–1507):
after each page, a section holding more than 20 items becomes a
page-level chunk and its content is reset. -/
def pageLoop (pageIdx : Nat) (sec : Section) :
    List (List LineFeatures × List String) → List Chunk × Section
  | [] => ([], sec)
  | (featList, classList) :: tail =>
    let res := lineLoop pageIdx sec (featList.zip classList)
    let sec1 := res.2
    let pageRes : List Chunk × Section :=
      if 20 < sec1.content.length then
        ((createPageChunk sec1 pageIdx).toList, { sec1 with content := [] })
      else ([], sec1)
    let rest := pageLoop (pageIdx + 1) pageRes.2 tail
    (res.1 ++ pageRes.1 ++ rest.1, rest.2)

/-- `DocumentParser._build_enhanced_text_chunks` (lines 1459–1515):
walk the zipped pages/features/classifications and flush the last open
section at the end. -/
def buildEnhancedTextChunks (pagesData : List PageData)
    (pageFeatures : List (List LineFeatures))
    (pageClassifications : List (List String)) : List Chunk :=
  let zipped := (pagesData.zip (pageFeatures.zip pageClassifications)).map (·.2)
  let res := pageLoop 0 ⟨"", [], 0, none⟩ zipped
  res.1 ++ (if res.2.content.isEmpty then [] else (finalizeSectionChunk res.2).toList)

/-- The sentence-splitting loop of `_fallback_text_extraction`
(lines 1110–1128) for a long page. -/
def splitLongPageAux (pageNum : Nat) :
    List String → String → List Chunk → List Chunk
  | [], current, acc =>
    if current.pyStrip ≠ "" then acc ++ [{ pageNumber := (pageNum : Int), text := current.pyStrip }]
    else acc
  | s :: rest, current, acc =>
    if 1500 < current.length + s.length then
      let acc' :=
        if current.pyStrip ≠ "" then
          acc ++ [{ pageNumber := (pageNum : Int), text := current.pyStrip ++ "." }]
        else acc
      splitLongPageAux pageNum rest s acc'
    else
      splitLongPageAux pageNum rest
        (if current ≠ "" then current ++ ". " ++ s else s) acc

/-- `DocumentParser._fallback_text_extraction` (lines 1097–1135):
page-based chunking, splitting pages longer than 2000 characters at
`'. '` boundaries. -/
def fallbackTextExtraction (pages : List PageData) : List Chunk :=
  pages.flatMap fun page =>
    let pageText :=
      " ".intercalate ((page.blocks.filter fun b => b.text.pyStrip ≠ "").map (·.text))
    if pageText.pyStrip = "" then []
    else if 2000 < pageText.length then
      splitLongPageAux page.pageNum (pageText.splitOn ". ") "" []
    else [{ pageNumber := (page.pageNum : Int), text := pageText.pyStrip }]

/-- `DocumentParser._simple_fallback_extraction` (lines 1346–1375),
applied to the pages recovered by the pdfminer fallback. -/
def simpleFallbackExtraction (pages : List PageData) : List Chunk :=
  pages.filterMap fun page =>
    let pageText :=
      " ".intercalate ((page.blocks.filter fun b => b.text.pyStrip ≠ "").map (·.text))
    if pageText.pyStrip = "" then none
    else some
      { pageNumber := (page.pageNum : Int)
        text := pageText.pyStrip
        sectionTitle := some ("Page " ++ toString (page.pageNum + 1) ++ " Content")
        chunkType := some "fallback"
        extractionMethod := some "simple_fallback" }

/-- `DocumentParser.get_text_chunks` (lines 98–145): the embedded-ToC
fast path when an outline exists, otherwise the general pipeline with
its empty-pages and empty-features fallbacks.  The feature-extraction
stage and the classifier (CRF-trained or rule-based, decided at
runtime) are passed as functions; their components are modelled
separately above. -/
def getTextChunks (featExtract : List PageData → List (List LineFeatures))
    (classify : List (List LineFeatures) → List (List String))
    (doc : PdfDoc) : List Chunk :=
  if ¬ doc.toc.isEmpty then extractChunksFromToc doc doc.toc
  else
    let pagesData := doc.pages
    if pagesData.isEmpty then []
    else
      let pageFeatures := featExtract pagesData
      if pageFeatures.isEmpty ∨ pageFeatures.all (·.isEmpty) then
        fallbackTextExtraction pagesData
      else
        postProcessChunks
          (buildEnhancedTextChunks pagesData pageFeatures (classify pageFeatures))

/-! ## Concrete instances used by counterexamples and witnesses -/

instance : Inhabited PageData := ⟨⟨0, 0, 0, []⟩⟩

instance : Inhabited Chunk := ⟨{ pageNumber := 0, text := "" }⟩

/-- A line that is bold and centered with modal font size: its heading
score is 7, inside the lower-confidence band. -/
def sampleMidScoreLine : LineFeatures :=
  ⟨"Overview of Results", 1, 10, true, true, 0, false, false, false, false, 19⟩

/-- A top-ranked bold centered line whose heading score reaches the
high-confidence band. -/
def sampleHighScoreLine : LineFeatures :=
  ⟨"Introduction and Scope", 1, 1, true, true, 0, false, false, false, false, 22⟩

/-- A two-page document whose outline has two entries starting on the
same page, so the first entry covers an empty page range. -/
def twoEntryDoc : PdfDoc :=
  { pageText := ["Hello world page one text", "Second page text body"]
    toc := [⟨1, "A", 1⟩, ⟨1, "B", 1⟩]
    pages := [] }

/-- A document whose single outline section contains 8 characters of
text, far below the 50-character minimum. -/
def shortSectionDoc : PdfDoc :=
  { pageText := ["Hi there", "x"]
    toc := [⟨1, "A", 1⟩]
    pages := [] }

/-- A three-page outline document used to witness the fast path. -/
def threePageTocDoc : PdfDoc :=
  { pageText :=
      ["Introduction body text with plenty of characters on the first page.",
       "Second section content, the body of the second outline entry.",
       "Trailing page outside both outline sections."]
    toc := [⟨1, "Intro", 1⟩, ⟨1, "Second", 2⟩]
    pages := [] }

/-- A zero-width run at a given horizontal position. -/
def runAt (x : ℚ) : Block := ⟨"t", x, 100, x, 110, 792, 0⟩

/-- Ten runs split 50/50 strictly left/right of the page centre 297.5,
but within the 50-point margin. -/
def nearCenterBlocks : List Block :=
  List.replicate 5 (runAt (593/2)) ++ List.replicate 5 (runAt (597/2))

/-- Ten runs split 50/50 into two well-separated columns. -/
def wideColumnBlocks : List Block :=
  List.replicate 5 (runAt 70) ++ List.replicate 5 (runAt 500)

/-- A header-zone block recurring on one of two pages. -/
def headerBlock : Block := ⟨"Acme Corporation", 72, 10, 300, 20, 792, 0⟩

/-- Body blocks for the header/footer counterexample. -/
def bodyBlock0 : Block := ⟨"Some body text here", 72, 400, 300, 412, 792, 0⟩

/-- Body block of the second page. -/
def bodyBlock1 : Block := ⟨"Second page body", 72, 400, 300, 412, 792, 1⟩

/-- Two pages where the header text appears on 50% of the pages. -/
def twoPageData : List PageData :=
  [⟨0, 595, 792, [headerBlock, bodyBlock0]⟩, ⟨1, 595, 792, [bodyBlock1]⟩]

/-- One hundred and twenty distinct texts, for the sub-batching
witness. -/
def witnessTexts : List String := (List.range 120).map toString

/-! # Theorems -/

/-! ### C10 — SearchService is a no-op -/

/-- C10: for every query vector and every `top_k`, `SearchService.search`
returns the empty list, and `SearchService.add_vectors` returns without
storing any vector or metadata (the state is unchanged): the repository's
vector-index operations are no-ops. -/
theorem searchService_noop (st : SearchState) (vectors : List Vec)
    (metadata : List Meta) (q : Vec) (topK : Nat) :
    SearchService.search st q topK = [] ∧
    SearchService.add_vectors st vectors metadata = st :=
  ⟨rfl, rfl⟩

/-! ### C5 — effective candidate threshold -/

/-- C5 counterexample: for the caller-supplied nominal threshold 0.5 the
code's effective threshold is `max(0.8 * 0.5, 0.1) = 0.4`, not the
claimed `max(0.4 * 0.5, 0.1) = 0.2`. -/
theorem effectiveThreshold_claim_counterexample :
    effectiveThreshold (some (1/2)) = 2/5 ∧
    max ((4/10) * ((1:ℚ)/2)) (1/10) = 1/5 ∧ (2/5 : ℚ) ≠ 1/5 := by
  refine ⟨?_, by norm_num, by norm_num⟩
  simp only [effectiveThreshold]
  norm_num

/-- C5 (amended): for every caller-supplied nominal similarity threshold
`t`, the effective threshold `extract_semantic_content` uses to admit a
chunk as a ranking candidate is `max(0.8 * t, 0.1)` (80% of the nominal
threshold with a floor of 0.1), and a chunk is admitted exactly when its
similarity reaches that value.  (The 40% scaling of the spec applies
only to the default-threshold path, as `min(0.7 * 0.4, 0.25)`.) -/
theorem effectiveThreshold_amended (t s : ℚ) :
    effectiveThreshold (some t) = max ((8/10) * t) (1/10) ∧
    (admitsChunk (some t) s = true ↔ max ((8/10) * t) (1/10) ≤ s) ∧
    effectiveThreshold none = min ((7/10) * (4/10)) (25/100) := by
  refine ⟨?_, ?_, ?_⟩
  · simp only [effectiveThreshold]
    ring_nf
  · simp only [admitsChunk, effectiveThreshold, decide_eq_true_eq]
    rw [mul_comm]
  · simp only [effectiveThreshold, similarityThreshold]

/-- C5 witness: the amended theorem evaluated at the nominal threshold
0.9 of the spec's scenario. -/
theorem effectiveThreshold_amended_witness :
    effectiveThreshold (some (9/10)) = max ((8/10) * ((9:ℚ)/10)) (1/10) :=
  (effectiveThreshold_amended (9/10) 0).1

/-! ### C9 — composite relevance score -/

/-- C9: for every candidate chunk the query-time relevance score equals
the base cosine similarity plus quality, chunk-type, semantic-marker,
keyword-overlap and extraction-method boosts, capped so the total never
exceeds 1.0; outline-sourced chunks get the largest method boost (0.1)
and enhanced-pipeline chunks a modest one (0.05). -/
theorem relevance_formula (sim : ℚ) (m : ChunkMeta) (query chunkText : String) :
    calculateEnhancedRelevance sim m query chunkText =
      min (sim + qualityBoost m + typeBoost m + markerBoost m +
        keywordBoost query chunkText + methodBoost m) 1 ∧
    calculateEnhancedRelevance sim m query chunkText ≤ 1 ∧
    methodBoost { m with extractionMethod := "embedded_toc" } = 1/10 ∧
    methodBoost { m with extractionMethod := "enhanced_pipeline" } = 5/100 ∧
    (∀ m' : ChunkMeta, methodBoost m' ≤ 1/10) := by
  refine ⟨rfl, min_le_right _ _, by norm_num [methodBoost], by simp [methodBoost], ?_⟩
  intro m'
  simp only [methodBoost]
  split
  · exact le_refl _
  · split <;> norm_num

/-! ### C7 — multi-column detection -/

/-- C7 counterexample: ten runs split 50/50 strictly left and right of
the page centre (297.5 for width 595) but inside the 50-point margin are
classified single-column by both detectors, contradicting the claim. -/
theorem multiColumn_claim_counterexample :
    nearCenterBlocks.length = 10 ∧
    (nearCenterBlocks.filter fun b => b.x0 < 595/2).length = 5 ∧
    (nearCenterBlocks.filter fun b => 595/2 < b.x0).length = 5 ∧
    detectMultiColumnLayout nearCenterBlocks 595 = false ∧
    isMultiColumnPage nearCenterBlocks 595 = false := by
  refine ⟨by norm_num [nearCenterBlocks], ?_, ?_, ?_, ?_⟩
  · norm_num [nearCenterBlocks, runAt, List.filter]
  · norm_num [nearCenterBlocks, runAt, List.filter]
  · norm_num [detectMultiColumnLayout, nearCenterBlocks, runAt, List.filter]
  · norm_num [isMultiColumnPage, nearCenterBlocks, runAt, List.filter]

/-- C7 (amended): for pages of at least 10 runs, a 50/50 split into a
column strictly left of `center - 50` and one strictly right of
`center + 50` is classified multi-column by
`_detect_multi_column_layout` (and the analogous split around
`0.8 * center` / `1.2 * center` of the run centres by
`_is_multi_column_page`); a page whose runs all lie in one half of the
page is classified single-column by both. -/
theorem multiColumnDetection_amended (blocks : List Block) (pageWidth : ℚ)
    (hw : 0 < pageWidth) (h10 : 10 ≤ blocks.length) :
    (2 * (blocks.filter fun b => b.x0 < pageWidth/2 - 50).length = blocks.length ∧
     2 * (blocks.filter fun b => pageWidth/2 + 50 < b.x0).length = blocks.length →
       detectMultiColumnLayout blocks pageWidth = true) ∧
    ((∀ b ∈ blocks, b.x0 ≤ pageWidth/2) →
       detectMultiColumnLayout blocks pageWidth = false) ∧
    ((∀ b ∈ blocks, pageWidth/2 ≤ b.x0) →
       detectMultiColumnLayout blocks pageWidth = false) ∧
    (2 * (blocks.filter fun b =>
        (b.x0 + b.x1)/2 < (pageWidth/2) * (8/10)).length = blocks.length ∧
     2 * (blocks.filter fun b =>
        (pageWidth/2) * (12/10) < (b.x0 + b.x1)/2).length = blocks.length →
       isMultiColumnPage blocks pageWidth = true) ∧
    ((∀ b ∈ blocks, (b.x0 + b.x1)/2 ≤ pageWidth/2) →
       isMultiColumnPage blocks pageWidth = false) ∧
    ((∀ b ∈ blocks, pageWidth/2 ≤ (b.x0 + b.x1)/2) →
       isMultiColumnPage blocks pageWidth = false) := by
  have hlen : ¬ blocks.length < 10 := by omega
  have hn0 : (0:ℚ) < (blocks.length : ℚ) := by
    exact_mod_cast Nat.lt_of_lt_of_le (by norm_num) h10
  have hn10 : (10:ℚ) ≤ (blocks.length : ℚ) := by exact_mod_cast h10
  refine ⟨?_, ?_, ?_, ?_, ?_, ?_⟩
  · rintro ⟨hl, hr⟩
    have hlq : 2 * ((blocks.filter fun b => b.x0 < pageWidth/2 - 50).length : ℚ)
        = (blocks.length : ℚ) := by exact_mod_cast hl
    have hrq : 2 * ((blocks.filter fun b => pageWidth/2 + 50 < b.x0).length : ℚ)
        = (blocks.length : ℚ) := by exact_mod_cast hr
    simp only [detectMultiColumnLayout, if_neg hlen, decide_eq_true_eq]
    constructor
    · rw [gt_iff_lt, lt_div_iff₀ hn0]
      linarith
    · rw [gt_iff_lt, lt_div_iff₀ hn0]
      linarith
  · intro hall
    have hempty : (blocks.filter fun b => pageWidth/2 + 50 < b.x0) = [] := by
      rw [List.filter_eq_nil_iff]
      intro b hb
      have := hall b hb
      simp only [decide_eq_true_eq, not_lt]
      linarith
    simp only [detectMultiColumnLayout, if_neg hlen, hempty]
    rw [decide_eq_false_iff_not]
    rintro ⟨-, hr⟩
    norm_num at hr
  · intro hall
    have hempty : (blocks.filter fun b => b.x0 < pageWidth/2 - 50) = [] := by
      rw [List.filter_eq_nil_iff]
      intro b hb
      have := hall b hb
      simp only [decide_eq_true_eq, not_lt]
      linarith
    simp only [detectMultiColumnLayout, if_neg hlen, hempty]
    rw [decide_eq_false_iff_not]
    rintro ⟨hl, -⟩
    norm_num at hl
  · rintro ⟨hl, hr⟩
    have hlq : 2 * ((blocks.filter fun b =>
        (b.x0 + b.x1)/2 < (pageWidth/2) * (8/10)).length : ℚ)
        = (blocks.length : ℚ) := by exact_mod_cast hl
    have hrq : 2 * ((blocks.filter fun b =>
        (pageWidth/2) * (12/10) < (b.x0 + b.x1)/2).length : ℚ)
        = (blocks.length : ℚ) := by exact_mod_cast hr
    simp only [isMultiColumnPage, if_neg hlen, decide_eq_true_eq]
    constructor
    · linarith
    · linarith
  · intro hall
    have hempty : (blocks.filter fun b =>
        (pageWidth/2) * (12/10) < (b.x0 + b.x1)/2) = [] := by
      rw [List.filter_eq_nil_iff]
      intro b hb
      have := hall b hb
      simp only [decide_eq_true_eq, not_lt]
      nlinarith
    simp only [isMultiColumnPage, if_neg hlen, hempty]
    rw [decide_eq_false_iff_not]
    rintro ⟨-, hr⟩
    simp only [List.length_nil, Nat.cast_zero] at hr
    nlinarith
  · intro hall
    have hempty : (blocks.filter fun b =>
        (b.x0 + b.x1)/2 < (pageWidth/2) * (8/10)) = [] := by
      rw [List.filter_eq_nil_iff]
      intro b hb
      have := hall b hb
      simp only [decide_eq_true_eq, not_lt]
      nlinarith
    simp only [isMultiColumnPage, if_neg hlen, hempty]
    rw [decide_eq_false_iff_not]
    rintro ⟨hl, -⟩
    simp only [List.length_nil, Nat.cast_zero] at hl
    nlinarith

/-- C7 witness: the amended theorem applied to a well-separated
two-column page of ten runs, which both detectors classify
multi-column. -/
theorem multiColumnDetection_amended_witness :
    detectMultiColumnLayout wideColumnBlocks 595 = true ∧
    isMultiColumnPage wideColumnBlocks 595 = true :=
  ⟨((multiColumnDetection_amended wideColumnBlocks 595 (by norm_num)
      (by norm_num [wideColumnBlocks])).1)
      ⟨by norm_num [wideColumnBlocks, runAt, List.filter],
       by norm_num [wideColumnBlocks, runAt, List.filter]⟩,
   ((multiColumnDetection_amended wideColumnBlocks 595 (by norm_num)
      (by norm_num [wideColumnBlocks])).2.2.2.1)
      ⟨by norm_num [wideColumnBlocks, runAt, List.filter],
       by norm_num [wideColumnBlocks, runAt, List.filter]⟩⟩

/-! ### Supporting lemmas for the ToC fast path -/

/-- Bounds of members of an integer half-open range. -/
theorem intRange_mem_bounds {a b p : Int} (hp : p ∈ intRange a b) :
    a ≤ p ∧ p < b := by
  unfold intRange at hp
  obtain ⟨k, hk, rfl⟩ := List.mem_map.mp hp
  rw [List.mem_range] at hk
  constructor <;> omega

/-- A `filterMap` has as many elements as inputs on which the function
succeeds. -/
theorem length_filterMap_eq_length_filter {α β : Type} (f : α → Option β) :
    ∀ l : List α, (l.filterMap f).length =
      (l.filter fun a => (f a).isSome).length := by
  intro l
  induction l with
  | nil => rfl
  | cons a l ih =>
    cases hf : f a <;> simp [List.filterMap_cons, List.filter_cons, hf, ih]

/-- Every chunk emitted for an outline entry carries the entry's 0-based
start page, and that page precedes the (clipped) section end. -/
theorem entryChunk_page_bounds (doc : PdfDoc) (toc : List TocEntry)
    (i : Nat) (e : TocEntry) (c : Chunk) (hget : toc[i]? = some e)
    (hchunk : entryChunk doc toc i = some c) :
    c.pageNumber = e.page - 1 ∧
    c.pageNumber < min (tocEndPage doc toc i) (doc.pageText.length : Int) := by
  have hget' : toc.get? i = some e := by
    simpa [List.get?_eq_getElem?] using hget
  have htext : tocSectionText doc toc i =
      ((intRange (e.page - 1) (min (tocEndPage doc toc i)
        (doc.pageText.length : Int))).filter (fun p => 0 ≤ p)).foldl
        (fun acc p => acc ++ doc.pageText.getD p.toNat "" ++ "\n") "" := by
    simp only [tocSectionText, hget']
  unfold entryChunk at hchunk
  rw [hget'] at hchunk
  simp only at hchunk
  split at hchunk
  · exact absurd hchunk (by simp)
  · rename_i hblank
    injection hchunk with hchunk
    subst hchunk
    refine ⟨rfl, ?_⟩
    have hne : ((intRange (e.page - 1) (min (tocEndPage doc toc i)
        (doc.pageText.length : Int))).filter (fun p => 0 ≤ p)) ≠ [] := by
      intro hnil
      apply hblank
      rw [htext, hnil]
      rfl
    obtain ⟨p, hp⟩ := List.exists_mem_of_ne_nil _ hne
    have hmem := (List.mem_filter.mp hp).1
    have := intRange_mem_bounds hmem
    simp only
    omega

/-! ### Supporting lemmas for the embedding cache -/

/-- Looking up the key just stored always returns the stored vector. -/
theorem lookup_insertEntry_self (l : List (String × Vec)) (h : String) (v : Vec) :
    List.lookup h (insertEntry l h v) = some v := by
  induction l with
  | nil => simp [insertEntry, List.lookup]
  | cons p rest ih =>
    obtain ⟨k, w⟩ := p
    by_cases hk : k = h
    · subst hk
      simp [insertEntry, List.lookup]
    · have hne : (h == k) = false := beq_eq_false_iff_ne.mpr fun he => hk he.symm
      simp only [insertEntry, if_neg hk, List.lookup, hne]
      exact ih

/-- `_cache_embedding` makes the stored hash resolve to the stored
vector. -/
theorem lookup_cacheEmbedding_self (st : EmbCache) (h : String) (v : Vec) :
    lookupCache (cacheEmbedding st h v) h = some v :=
  lookup_insertEntry_self _ h v

/-! ### C2 — deterministic, idempotent, cached embedding -/

/-- C2 counterexample: for the empty text the first `create_embedding`
call returns the 384-dimension zero vector but caches nothing — the
cache still has no entry under the text's hash — contradicting the
claim that the first call always caches the vector. -/
theorem createEmbedding_claim_counterexample :
    (createEmbedding (fun _ => some [1]) id ⟨[]⟩ "").1 = zeroVec ∧
    (createEmbedding (fun _ => some [1]) id ⟨[]⟩ "").2 = ⟨[]⟩ ∧
    lookupCache (createEmbedding (fun _ => some [1]) id ⟨[]⟩ "").2 (id "") =
      none :=
  ⟨by decide, by decide, by decide⟩

/-- C2 (amended): `create_embedding` is deterministic and idempotent for
every text — a repeated call returns a bit-identical vector and leaves
the cache unchanged — and for every text that is non-blank after
preprocessing and encodes successfully, a first call on a cache miss
computes the vector, caches it under the text's content hash, and every
subsequent call with the identical text returns the cached vector;
a cache hit returns the cached vector with the state untouched. -/
theorem createEmbedding_cache_amended (enc : String → Option Vec)
    (hash : String → String) (st : EmbCache) (text : String) :
    ((createEmbedding enc hash (createEmbedding enc hash st text).2 text).1 =
       (createEmbedding enc hash st text).1 ∧
     (createEmbedding enc hash (createEmbedding enc hash st text).2 text).2 =
       (createEmbedding enc hash st text).2) ∧
    (∀ v, lookupCache st (hash text) = some v →
      createEmbedding enc hash st text = (v, st)) ∧
    (∀ v, lookupCache st (hash text) = none →
      (preprocessText text).pyStrip ≠ "" →
      enc (preprocessText text) = some v →
      (createEmbedding enc hash st text).1 = v ∧
      lookupCache (createEmbedding enc hash st text).2 (hash text) = some v ∧
      (createEmbedding enc hash (createEmbedding enc hash st text).2 text).1 =
        v) := by
  have hstep : ∀ (s : EmbCache) (v : Vec), lookupCache s (hash text) = some v →
      createEmbedding enc hash s text = (v, s) := by
    intro s v hl
    unfold createEmbedding
    dsimp only
    rw [hl]
  have hmiss : ∀ (s : EmbCache), lookupCache s (hash text) = none →
      (preprocessText text).pyStrip ≠ "" →
      ∀ v, enc (preprocessText text) = some v →
      createEmbedding enc hash s text = (v, cacheEmbedding s (hash text) v) := by
    intro s hl hblank v henc
    unfold createEmbedding
    dsimp only
    rw [hl]
    dsimp only
    rw [if_neg hblank, henc]
  refine ⟨?_, hstep st, ?_⟩
  · rcases hl : lookupCache st (hash text) with _ | v
    · by_cases hblank : (preprocessText text).pyStrip = ""
      · have h1 : createEmbedding enc hash st text = (zeroVec, st) := by
          unfold createEmbedding
          dsimp only
          rw [hl]
          dsimp only
          rw [if_pos hblank]
        rw [h1]
        dsimp only
        rw [h1]
        exact ⟨rfl, rfl⟩
      · rcases henc : enc (preprocessText text) with _ | v
        · have h1 : createEmbedding enc hash st text = ([], st) := by
            unfold createEmbedding
            dsimp only
            rw [hl]
            dsimp only
            rw [if_neg hblank, henc]
          rw [h1]
          dsimp only
          rw [h1]
          exact ⟨rfl, rfl⟩
        · have h1 := hmiss st hl hblank v henc
          rw [h1]
          dsimp only
          have h2 := hstep (cacheEmbedding st (hash text) v) v
            (lookup_cacheEmbedding_self st (hash text) v)
          rw [h2]
          exact ⟨rfl, rfl⟩
    · rw [hstep st v hl]
      dsimp only
      rw [hstep st v hl]
      exact ⟨rfl, rfl⟩
  · intro v hl hblank henc
    have h1 := hmiss st hl hblank v henc
    rw [h1]
    refine ⟨rfl, lookup_cacheEmbedding_self st (hash text) v, ?_⟩
    dsimp only
    rw [hstep (cacheEmbedding st (hash text) v) v
      (lookup_cacheEmbedding_self st (hash text) v)]

/-- C2 witness: the amended theorem applied with a concrete encoder and
the identity hash on an empty cache and the text `hello world`. -/
theorem createEmbedding_cache_amended_witness :
    (createEmbedding (fun _ => some [1, 2]) id ⟨[]⟩ "hello world").1 = [1, 2] ∧
    lookupCache (createEmbedding (fun _ => some [1, 2]) id ⟨[]⟩
      "hello world").2 (id "hello world") = some [1, 2] :=
  ⟨((createEmbedding_cache_amended (fun _ => some [1, 2]) id ⟨[]⟩
      "hello world").2.2 [1, 2] rfl (by decide) rfl).1,
   ((createEmbedding_cache_amended (fun _ => some [1, 2]) id ⟨[]⟩
      "hello world").2.2 [1, 2] rfl (by decide) rfl).2.1⟩

/-! ### Supporting lemmas for batch embedding -/

/-- Inversion for a successful batch encoding of a cons cell. -/
theorem encodeAll_cons_inv {enc : String → Option Vec} {x : String}
    {l : List String} {vs : List Vec}
    (h : encodeAll enc (x :: l) = some vs) :
    ∃ v vs', enc x = some v ∧ encodeAll enc l = some vs' ∧ vs = v :: vs' := by
  rcases henc : enc x with _ | v <;>
    rcases hrest : encodeAll enc l with _ | vs' <;>
      simp only [encodeAll, henc, hrest] at h
  any_goals exact Option.noConfusion h
  exact ⟨v, vs', rfl, rfl, (Option.some.inj h).symm⟩

/-- A failing text anywhere makes the whole batch encoding fail. -/
theorem encodeAll_none_of_mem {enc : String → Option Vec} {x : String} :
    ∀ {l : List String}, x ∈ l → enc x = none → encodeAll enc l = none := by
  intro l
  induction l with
  | nil => intro h; exact absurd h (List.not_mem_nil x)
  | cons a l ih =>
    intro hmem hx
    rcases List.mem_cons.mp hmem with rfl | hmem'
    · simp only [encodeAll, hx]
    · rw [show encodeAll enc (a :: l) =
          (match enc a, encodeAll enc l with
           | some v, some vs => some (v :: vs)
           | _, _ => none) from rfl, ih hmem' hx]
      rcases enc a <;> rfl

/-- A batch of individually encodable texts encodes successfully. -/
theorem encodeAll_isSome_of_forall {enc : String → Option Vec} :
    ∀ (l : List String), (∀ x ∈ l, (enc x).isSome) →
      ∃ vs, encodeAll enc l = some vs := by
  intro l
  induction l with
  | nil => intro _; exact ⟨[], rfl⟩
  | cons a l ih =>
    intro hall
    obtain ⟨vs, hvs⟩ := ih fun x hx => hall x (List.mem_cons_of_mem a hx)
    rcases henc : enc a with _ | v
    · exact absurd (henc ▸ hall a (List.mem_cons_self a l)) (by simp)
    · exact ⟨v :: vs, by simp only [encodeAll, henc, hvs]⟩

/-- Every pair of a successfully encoded batch relates text to its
vector. -/
theorem encodeAll_zip {enc : String → Option Vec} :
    ∀ {l : List String} {vs : List Vec}, encodeAll enc l = some vs →
      ∀ p ∈ l.zip vs, enc p.1 = some p.2 := by
  intro l
  induction l with
  | nil => intro vs _ p hp; exact absurd hp (by simp)
  | cons a l ih =>
    intro vs h p hp
    obtain ⟨v, vs', henc, hrest, rfl⟩ := encodeAll_cons_inv h
    rcases List.mem_cons.mp hp with rfl | hp'
    · exact henc
    · exact ih hrest p hp'

/-- The filled list is as long as the cache-hit skeleton. -/
theorem fillUncached_length :
    ∀ (cached : List (Option Vec)) (vs : List Vec),
      (fillUncached cached vs).length = cached.length := by
  intro cached
  induction cached with
  | nil => intro vs; rfl
  | cons o rest ih =>
    intro vs
    rcases o with _ | v
    · rcases vs with _ | ⟨v, vs⟩ <;> simp [fillUncached, ih]
    · simp [fillUncached, ih]

/-- `getD` of an append, left part. -/
theorem listGetD_append_left {α : Type} :
    ∀ (l l' : List α) (i : Nat) (d : α), i < l.length →
      (l ++ l').getD i d = l.getD i d := by
  intro l
  induction l with
  | nil => intro l' i d h; exact absurd h (by simp)
  | cons a l ih =>
    intro l' i d h
    rcases i with _ | i
    · rfl
    · simpa [List.getD] using ih l' i d (by simpa using h)

/-- `getD` of an append, right part. -/
theorem listGetD_append_right {α : Type} :
    ∀ (l l' : List α) (i : Nat) (d : α), l.length ≤ i →
      (l ++ l').getD i d = l'.getD (i - l.length) d := by
  intro l
  induction l with
  | nil => intro l' i d _; rfl
  | cons a l ih =>
    intro l' i d h
    rcases i with _ | i
    · exact absurd h (by simp)
    · simpa [List.getD] using ih l' i d (by simpa using h)

/-- `getD` of a replicate inside range. -/
theorem listGetD_replicate {α : Type} :
    ∀ (n : Nat) (a : α) (i : Nat) (d : α), i < n →
      (List.replicate n a).getD i d = a := by
  intro n
  induction n with
  | zero => intro a i d h; exact absurd h (by simp)
  | succ n ih =>
    intro a i d h
    rcases i with _ | i
    · rfl
    · simpa [List.replicate, List.getD] using ih a i d (by omega)

/-- `getD` of a take inside range. -/
theorem listGetD_take {α : Type} :
    ∀ (l : List α) (n i : Nat) (d : α), i < n →
      (l.take n).getD i d = l.getD i d := by
  intro l
  induction l with
  | nil => intro n i d _; simp [List.getD]
  | cons a l ih =>
    intro n i d h
    rcases n with _ | n
    · exact absurd h (by simp)
    · rcases i with _ | i
      · rfl
      · simpa [List.getD] using ih n i d (by omega)

/-- `getD` of a drop. -/
theorem listGetD_drop {α : Type} :
    ∀ (l : List α) (n i : Nat) (d : α),
      (l.drop n).getD i d = l.getD (n + i) d := by
  intro l
  induction l with
  | nil => intro n i d; simp [List.getD]
  | cons a l ih =>
    intro n i d
    rcases n with _ | n
    · simp
    · show (l.drop n).getD i d = (a :: l).getD (n + 1 + i) d
      rw [ih n i d, show n + 1 + i = (n + i) + 1 from by omega]
      simp [List.getD]

/-- Members of an insert are old members or the inserted pair. -/
theorem mem_insertEntry {p : String × Vec} :
    ∀ {l : List (String × Vec)} {h : String} {v : Vec},
      p ∈ insertEntry l h v → p ∈ l ∨ p = (h, v) := by
  intro l
  induction l with
  | nil =>
    intro h v hp
    right
    simpa [insertEntry] using hp
  | cons q rest ih =>
    intro h v hp
    obtain ⟨k, w⟩ := q
    by_cases hk : k = h
    · subst hk
      simp only [insertEntry, if_pos rfl] at hp
      rcases List.mem_cons.mp hp with rfl | hp'
      · right; rfl
      · left; exact List.mem_cons_of_mem _ hp'
    · simp only [insertEntry, if_neg hk] at hp
      rcases List.mem_cons.mp hp with rfl | hp'
      · left; exact List.mem_cons_self _ _
      · rcases ih hp' with h' | h'
        · left; exact List.mem_cons_of_mem _ h'
        · right; exact h'

/-- A successful lookup pairs the key with a stored vector. -/
theorem lookup_mem {h : String} {v : Vec} :
    ∀ {l : List (String × Vec)}, List.lookup h l = some v → (h, v) ∈ l := by
  intro l
  induction l with
  | nil => intro hl; exact absurd hl (by simp)
  | cons q rest ih =>
    intro hl
    obtain ⟨k, w⟩ := q
    by_cases hk : h = k
    · subst hk
      simp only [List.lookup, beq_self_eq_true] at hl
      rcases Option.some.inj hl with rfl
      exact List.mem_cons_self _ _
    · simp only [List.lookup,
        show (h == k) = false from beq_eq_false_iff_ne.mpr hk] at hl
      exact List.mem_cons_of_mem _ (ih hl)

section EmbeddingLemmas

variable {enc : String → Option Vec} {hash : String → String}

/-- Under the cache invariant and an injective hash, a cache hit for a
text's hash returns exactly that text's encoded vector. -/
theorem lookup_some_encVec {st : EmbCache} {t : String} {v : Vec}
    (hinv : CacheInv enc hash st) (hinj : Function.Injective hash)
    (hl : lookupCache st (hash t) = some v) :
    enc (preprocessText t) = some v := by
  obtain ⟨t', ht', henc⟩ := hinv _ (lookup_mem hl)
  rcases hinj ht' with rfl
  exact henc

/-- Under the cache invariant and an injective hash, a text whose
encoding fails is never cached. -/
theorem lookup_none_of_encFail {st : EmbCache} {t : String}
    (hinv : CacheInv enc hash st) (hinj : Function.Injective hash)
    (hfail : enc (preprocessText t) = none) :
    lookupCache st (hash t) = none := by
  rcases hl : lookupCache st (hash t) with _ | v
  · rfl
  · rw [lookup_some_encVec hinv hinj hl] at hfail
    exact absurd hfail (by simp)

/-- `_cache_embedding` preserves the cache invariant when the stored
pair comes from a successful encoding. -/
theorem cacheInv_cacheEmbedding {st : EmbCache} {h : String} {v : Vec}
    (hinv : CacheInv enc hash st)
    (hpair : ∃ t, h = hash t ∧ enc (preprocessText t) = some v) :
    CacheInv enc hash (cacheEmbedding st h v) := by
  intro p hp
  unfold cacheEmbedding at hp
  dsimp only at hp
  rcases mem_insertEntry hp with hmem | rfl
  · split at hmem
    · exact hinv p (List.mem_of_mem_drop hmem)
    · exact hinv p hmem
  · exact hpair

/-- Folding `_cache_embedding` over text/vector pairs produced by a
successful batch encoding preserves the cache invariant. -/
theorem cacheInv_foldl :
    ∀ (pairs : List (String × Vec)) (st : EmbCache),
      CacheInv enc hash st →
      (∀ p ∈ pairs, enc (preprocessText p.1) = some p.2) →
      CacheInv enc hash
        (pairs.foldl (fun s tv => cacheEmbedding s (hash tv.1) tv.2) st) := by
  intro pairs
  induction pairs with
  | nil => intro st hinv _; exact hinv
  | cons p rest ih =>
    intro st hinv hall
    exact ih _ (cacheInv_cacheEmbedding hinv
        ⟨p.1, rfl, hall p (List.mem_cons_self p rest)⟩)
      fun q hq => hall q (List.mem_cons_of_mem p hq)

/-- A sub-batch containing a text whose encoding fails leaves the cache
untouched and returns the empty list (the Python `except` branch). -/
theorem processEmbeddingBatch_fail {st : EmbCache} {texts : List String}
    {t : String} (hinv : CacheInv enc hash st)
    (hinj : Function.Injective hash) (hmem : t ∈ texts)
    (hfail : enc (preprocessText t) = none) :
    processEmbeddingBatch enc hash st texts = ([], st) := by
  have huncached : t ∈ texts.filter
      (fun t => (lookupCache st (hash t)).isNone) :=
    List.mem_filter.mpr ⟨hmem, by
      simp [lookup_none_of_encFail hinv hinj hfail]⟩
  have hnone : encodeAll enc ((texts.filter
      (fun t => (lookupCache st (hash t)).isNone)).map preprocessText) = none :=
    encodeAll_none_of_mem (List.mem_map_of_mem preprocessText huncached) hfail
  unfold processEmbeddingBatch
  dsimp only
  rw [hnone]

/-- Positional correctness of the placeholder fill: under the cache
invariant and an injective hash, position `i` of the filled list is the
encoded vector of text `i`. -/
theorem fillUncached_getD (st : EmbCache)
    (hinv : CacheInv enc hash st) (hinj : Function.Injective hash) :
    ∀ (texts : List String) (vs : List Vec),
      encodeAll enc ((texts.filter
        (fun t => (lookupCache st (hash t)).isNone)).map preprocessText) =
          some vs →
      ∀ i, i < texts.length →
        (fillUncached (texts.map fun t => lookupCache st (hash t)) vs).getD
            i [] =
          encVec enc (texts.getD i "") := by
  intro texts
  induction texts with
  | nil => intro vs _ i hi; exact absurd hi (by simp)
  | cons t rest ih =>
    intro vs henc i hi
    rcases hl : lookupCache st (hash t) with _ | v
    · rw [List.filter_cons_of_pos (by simp [hl])] at henc
      rw [List.map_cons] at henc
      obtain ⟨v, vs', hv, hrest, rfl⟩ := encodeAll_cons_inv henc
      rcases i with _ | i
      · simp only [List.map_cons, hl, fillUncached, List.getD]
        simp [encVec, hv]
      · simp only [List.map_cons, hl, fillUncached]
        simpa [List.getD] using ih vs' hrest i (by simpa using hi)
    · rw [List.filter_cons_of_neg (by simp [hl])] at henc
      rcases i with _ | i
      · simp only [List.map_cons, hl, fillUncached, List.getD]
        simp [encVec, lookup_some_encVec hinv hinj hl]
      · simp only [List.map_cons, hl, fillUncached]
        simpa [List.getD] using ih vs henc i (by simpa using hi)

/-- Success case of `_process_embedding_batch`: one vector per text, in
input order, each the encoding of its text; the invariant is
preserved. -/
theorem processEmbeddingBatch_success {st : EmbCache} {texts : List String}
    (hinv : CacheInv enc hash st) (hinj : Function.Injective hash)
    (hok : ∀ t ∈ texts, (enc (preprocessText t)).isSome) :
    (processEmbeddingBatch enc hash st texts).1.length = texts.length ∧
    (∀ i, i < texts.length →
      (processEmbeddingBatch enc hash st texts).1.getD i [] =
        encVec enc (texts.getD i "")) ∧
    CacheInv enc hash (processEmbeddingBatch enc hash st texts).2 := by
  obtain ⟨vs, hvs⟩ := encodeAll_isSome_of_forall
    ((texts.filter fun t => (lookupCache st (hash t)).isNone).map preprocessText)
    (fun x hx => by
      obtain ⟨t, ht, rfl⟩ := List.mem_map.mp hx
      exact hok t (List.mem_filter.mp ht).1)
  rw [processEmbeddingBatch]
  dsimp only
  rw [hvs]
  dsimp only
  refine ⟨?_, ?_, ?_⟩
  · rw [fillUncached_length, List.length_map]
  · intro i hi
    exact fillUncached_getD st hinv hinj texts vs hvs i hi
  · refine cacheInv_foldl _ st hinv ?_
    intro p hp
    have hzip : (preprocessText p.1, p.2) ∈
        ((texts.filter fun t => (lookupCache st (hash t)).isNone).map
          preprocessText).zip vs := by
      rw [List.zip_map_left]
      exact List.mem_map_of_mem (Prod.map preprocessText id) hp
    exact encodeAll_zip hvs _ hzip

/-- The cache invariant survives any `_process_embedding_batch` call. -/
theorem processEmbeddingBatch_inv {st : EmbCache} {texts : List String}
    (hinv : CacheInv enc hash st) :
    CacheInv enc hash (processEmbeddingBatch enc hash st texts).2 := by
  rw [processEmbeddingBatch]
  dsimp only
  rcases hvs : encodeAll enc ((texts.filter
      (fun t => (lookupCache st (hash t)).isNone)).map preprocessText)
    with _ | vs
  · exact hinv
  · dsimp only
    refine cacheInv_foldl _ st hinv ?_
    intro p hp
    have hzip : (preprocessText p.1, p.2) ∈
        ((texts.filter fun t => (lookupCache st (hash t)).isNone).map
          preprocessText).zip vs := by
      rw [List.zip_map_left]
      exact List.mem_map_of_mem (Prod.map preprocessText id) hp
    exact encodeAll_zip hvs _ hzip

end EmbeddingLemmas

/-- For positions in the first sub-batch, `subBatch` is the first 50
texts. -/
theorem subBatch_small (texts : List String) (i : Nat) (h : i < 50) :
    subBatch texts i = texts.take 50 := by
  simp [subBatch, Nat.div_eq_of_lt h]

/-- `subBatch` commutes with dropping a whole leading sub-batch. -/
theorem subBatch_shift (texts : List String) (i : Nat) (h : 50 ≤ i) :
    subBatch (texts.drop 50) (i - 50) = subBatch texts i := by
  unfold subBatch
  rw [List.drop_drop]
  rw [show 50 + 50 * ((i - 50) / 50) = 50 * (i / 50) from by omega]

/-- Full behaviour of the sub-batch loop: the output is one vector per
input text; a position whose sub-batch encodes successfully carries its
text's vector, and a position in a failed sub-batch carries the zero
vector. -/
theorem batchGo_spec (enc : String → Option Vec) (hash : String → String)
    (hinj : Function.Injective hash) :
    ∀ (n : Nat) (texts : List String) (st : EmbCache),
      texts.length ≤ n → CacheInv enc hash st →
      (batchGo enc hash st texts).1.length = texts.length ∧
      ∀ i, i < texts.length →
        ((∀ t ∈ subBatch texts i, (enc (preprocessText t)).isSome) →
          (batchGo enc hash st texts).1.getD i [] =
            encVec enc (texts.getD i "")) ∧
        ((∃ t ∈ subBatch texts i, enc (preprocessText t) = none) →
          (batchGo enc hash st texts).1.getD i [] = zeroVec) := by
  intro n
  induction n with
  | zero =>
    intro texts st hlen _
    have htnil : texts = [] := List.length_eq_zero.mp (by omega)
    subst htnil
    rw [batchGo]
    exact ⟨rfl, fun i hi => absurd hi (by simp)⟩
  | succ n ih =>
    intro texts st hlen hinv
    by_cases hemp : texts.isEmpty
    · have htnil : texts = [] := List.isEmpty_iff.mp hemp
      subst htnil
      rw [batchGo]
      exact ⟨rfl, fun i hi => absurd hi (by simp)⟩
    · have htne : texts ≠ [] := fun h => hemp (by simp [h])
      have hpos : 0 < texts.length := List.length_pos.mpr htne
      have htake : (texts.take 50).length = min 50 texts.length :=
        List.length_take 50 texts
      have hdroplen : (texts.drop 50).length = texts.length - 50 :=
        List.length_drop 50 texts
      rw [batchGo, if_neg hemp]
      dsimp only
      by_cases hfail : ∃ t ∈ texts.take 50, enc (preprocessText t) = none
      · obtain ⟨t, ht, htf⟩ := hfail
        have hres := processEmbeddingBatch_fail hinv hinj ht htf
        rw [hres]
        dsimp only
        rw [if_pos rfl]
        have ihd := ih (texts.drop 50) st (by omega) hinv
        constructor
        · rw [List.length_append, List.length_replicate, ihd.1]
          omega
        · intro i hi
          by_cases hi50 : i < (texts.take 50).length
          · have hi50' : i < 50 := by omega
            constructor
            · intro hall
              have := hall t (by rwa [subBatch_small texts i hi50'])
              rw [htf] at this
              exact absurd this (by simp)
            · intro _
              rw [listGetD_append_left _ _ _ _
                (by rwa [List.length_replicate])]
              exact listGetD_replicate _ _ _ _ hi50
          · have h50le : 50 ≤ i := by omega
            have hlen50 : (texts.take 50).length = 50 := by omega
            have hgd : (List.replicate (texts.take 50).length zeroVec ++
                (batchGo enc hash st (texts.drop 50)).1).getD i [] =
                (batchGo enc hash st (texts.drop 50)).1.getD (i - 50) [] := by
              rw [listGetD_append_right _ _ _ _
                (by rw [List.length_replicate]; omega)]
              rw [List.length_replicate, hlen50]
            have hidx := ihd.2 (i - 50) (by omega)
            rw [subBatch_shift texts i h50le] at hidx
            have hval : (texts.drop 50).getD (i - 50) "" =
                texts.getD i "" := by
              rw [listGetD_drop, show 50 + (i - 50) = i from by omega]
            rw [hval] at hidx
            rw [hgd]
            exact hidx
      · push_neg at hfail
        have hok : ∀ t ∈ texts.take 50, (enc (preprocessText t)).isSome := by
          intro t ht
          exact Option.ne_none_iff_isSome.mp (hfail t ht)
        have hspec := processEmbeddingBatch_success hinv hinj hok
        have hres1ne : (processEmbeddingBatch enc hash st
            (texts.take 50)).1 ≠ [] := by
          refine List.length_pos.mp ?_
          rw [hspec.1]
          omega
        rw [if_neg hres1ne]
        have ihd := ih (texts.drop 50)
          (processEmbeddingBatch enc hash st (texts.take 50)).2
          (by omega) hspec.2.2
        constructor
        · rw [List.length_append, hspec.1, ihd.1]
          omega
        · intro i hi
          by_cases hi50 : i < (texts.take 50).length
          · have hi50' : i < 50 := by omega
            constructor
            · intro _
              rw [listGetD_append_left _ _ _ _ (by rwa [hspec.1])]
              rw [hspec.2.1 i hi50]
              rw [listGetD_take _ _ _ _ hi50']
            · intro hex
              obtain ⟨t, ht, htf⟩ := hex
              rw [subBatch_small texts i hi50'] at ht
              have := hok t ht
              rw [htf] at this
              exact absurd this (by simp)
          · have h50le : 50 ≤ i := by omega
            have hgd : ((processEmbeddingBatch enc hash st (texts.take 50)).1 ++
                (batchGo enc hash (processEmbeddingBatch enc hash st
                  (texts.take 50)).2 (texts.drop 50)).1).getD i [] =
                (batchGo enc hash (processEmbeddingBatch enc hash st
                  (texts.take 50)).2 (texts.drop 50)).1.getD (i - 50) [] := by
              rw [listGetD_append_right _ _ _ _ (by rw [hspec.1]; omega)]
              rw [hspec.1, show (texts.take 50).length = 50 from by omega]
            have hidx := ihd.2 (i - 50) (by omega)
            rw [subBatch_shift texts i h50le] at hidx
            have hval : (texts.drop 50).getD (i - 50) "" =
                texts.getD i "" := by
              rw [listGetD_drop, show 50 + (i - 50) = i from by omega]
            rw [hval] at hidx
            rw [hgd]
            exact hidx

/-! ### C3 — sub-batched embedding of large inputs -/

/-- C3: for every input of more than 100 texts (with a collision-free
content hash and a well-formed cache), `create_embeddings_batch`
processes the input in sub-batches of 50 and returns one vector per
input text, in input order: position `i` carries the encoding of text
`i` whenever text `i`'s sub-batch of 50 encodes successfully, and the
384-dimension zero vector whenever some text of that sub-batch fails to
encode. -/
theorem createEmbeddingsBatch_subbatching (enc : String → Option Vec)
    (hash : String → String) (st : EmbCache) (texts : List String)
    (hinj : Function.Injective hash) (hinv : CacheInv enc hash st)
    (hlen : 100 < texts.length) :
    (createEmbeddingsBatch enc hash st texts).1.length = texts.length ∧
    ∀ i, i < texts.length →
      ((∀ t ∈ subBatch texts i, (enc (preprocessText t)).isSome) →
        (createEmbeddingsBatch enc hash st texts).1.getD i [] =
          encVec enc (texts.getD i "")) ∧
      ((∃ t ∈ subBatch texts i, enc (preprocessText t) = none) →
        (createEmbeddingsBatch enc hash st texts).1.getD i [] = zeroVec) := by
  rw [createEmbeddingsBatch, if_pos hlen]
  exact batchGo_spec enc hash hinj texts.length texts st le_rfl hinv

/-- C3 witness: 120 texts with an always-succeeding encoder and the
identity hash on an empty cache yield 120 vectors. -/
theorem createEmbeddingsBatch_subbatching_witness :
    100 < witnessTexts.length ∧
    (createEmbeddingsBatch (fun _ => some [1]) id ⟨[]⟩ witnessTexts).1.length =
      witnessTexts.length :=
  ⟨by simp [witnessTexts],
   (createEmbeddingsBatch_subbatching (fun _ => some [1]) id ⟨[]⟩ witnessTexts
      (fun a b h => h) (fun p hp => absurd hp (List.not_mem_nil p))
      (by simp [witnessTexts])).1⟩

/-! ### C1 — embedded-outline fast path -/

/-- C1 counterexample: a two-page document whose outline has two entries
starting on the same page takes the fast path but returns one chunk, not
one per outline entry: the first entry's page range is empty, so its
blank section text is skipped. -/
theorem tocFastPath_claim_counterexample :
    twoEntryDoc.toc ≠ [] ∧
    (getTextChunks (fun _ => []) (fun _ => []) twoEntryDoc).length = 1 ∧
    twoEntryDoc.toc.length = 2 :=
  ⟨by decide, by decide, by decide⟩

/-- C1 (amended): for every PDF carrying an embedded outline,
`get_text_chunks` takes the fast path, which returns at most one chunk
per outline entry — exactly one for each entry whose covered page text
is non-blank — and each returned chunk's 0-based `page_number` is its
entry's declared start page, which lies below the (document-clipped)
declared end of the entry's page range. -/
theorem tocFastPath_amended (featExtract : List PageData → List (List LineFeatures))
    (classify : List (List LineFeatures) → List (List String))
    (doc : PdfDoc) (htoc : doc.toc ≠ []) :
    getTextChunks featExtract classify doc = extractChunksFromToc doc doc.toc ∧
    (extractChunksFromToc doc doc.toc).length ≤ doc.toc.length ∧
    (extractChunksFromToc doc doc.toc).length =
      ((List.range doc.toc.length).filter
        (fun i => (entryChunk doc doc.toc i).isSome)).length ∧
    (∀ (i : Nat) (e : TocEntry) (c : Chunk), doc.toc[i]? = some e →
      entryChunk doc doc.toc i = some c →
      c.pageNumber = e.page - 1 ∧
      c.pageNumber < min (tocEndPage doc doc.toc i)
        (doc.pageText.length : Int)) := by
  have hfalse : doc.toc.isEmpty = false := by
    simpa [List.isEmpty_iff] using htoc
  refine ⟨?_, ?_, ?_, ?_⟩
  · simp [getTextChunks, hfalse]
  · calc (extractChunksFromToc doc doc.toc).length
        ≤ (List.range doc.toc.length).length :=
          List.length_filterMap_le _ _
      _ = doc.toc.length := List.length_range _
  · exact length_filterMap_eq_length_filter _ _
  · intro i e c hget hchunk
    exact entryChunk_page_bounds doc doc.toc i e c hget hchunk

/-- C1 witness: the amended theorem applied to a three-page document
with a two-entry outline. -/
theorem tocFastPath_amended_witness :
    getTextChunks (fun _ => []) (fun _ => []) threePageTocDoc =
      extractChunksFromToc threePageTocDoc threePageTocDoc.toc ∧
    (extractChunksFromToc threePageTocDoc threePageTocDoc.toc).length ≤
      threePageTocDoc.toc.length :=
  ⟨(tocFastPath_amended (fun _ => []) (fun _ => []) threePageTocDoc (by decide)).1,
   (tocFastPath_amended (fun _ => []) (fun _ => []) threePageTocDoc (by decide)).2.1⟩

/-! ### Supporting lemmas for the chunk-text invariant -/

/-- Appending a full stop never yields the empty string. -/
theorem append_dot_ne_empty (s : String) : s ++ "." ≠ "" := by
  intro h
  have hdata := congrArg String.data h
  simp only [String.data_append] at hdata
  exact absurd (List.append_eq_nil.mp hdata).2 (by simp)

/-- A string whose stripped form is at least 50 characters long is not
empty. -/
theorem ne_empty_of_pyStrip_length {s : String}
    (h : 50 ≤ s.pyStrip.length) : s ≠ "" := by
  intro hs
  subst hs
  exact absurd h (by decide)

/-- Chunks emitted by the outline fast path have non-blank text. -/
theorem entryChunk_text_ne (doc : PdfDoc) (toc : List TocEntry) (i : Nat)
    (c : Chunk) (hchunk : entryChunk doc toc i = some c) : c.text ≠ "" := by
  unfold entryChunk at hchunk
  split at hchunk
  · exact absurd hchunk (by simp)
  · split at hchunk
    · exact absurd hchunk (by simp)
    · rename_i hblank
      injection hchunk with hchunk
      subst hchunk
      exact hblank

/-- Every chunk accumulated by the long-page sentence splitter has
non-empty text, provided the accumulator's chunks do. -/
theorem splitLongPageAux_text_ne (pageNum : Nat) :
    ∀ (sentences : List String) (current : String) (acc : List Chunk),
      (∀ c ∈ acc, c.text ≠ "") →
      ∀ c ∈ splitLongPageAux pageNum sentences current acc, c.text ≠ "" := by
  intro sentences
  induction sentences with
  | nil =>
    intro current acc hacc c hc
    unfold splitLongPageAux at hc
    split at hc
    · rcases List.mem_append.mp hc with h | h
      · exact hacc c h
      · rename_i hcur
        rcases List.mem_singleton.mp h with rfl
        exact hcur
    · exact hacc c hc
  | cons s rest ih =>
    intro current acc hacc c hc
    unfold splitLongPageAux at hc
    split at hc
    · refine ih _ _ ?_ c hc
      intro c' hc'
      split at hc'
      · rcases List.mem_append.mp hc' with h | h
        · exact hacc c' h
        · rcases List.mem_singleton.mp h with rfl
          exact append_dot_ne_empty _
      · exact hacc c' hc'
    · exact ih _ _ hacc c hc

/-- Chunks of the page-based fallback have non-empty text. -/
theorem fallbackTextExtraction_text_ne (pages : List PageData) (c : Chunk)
    (hc : c ∈ fallbackTextExtraction pages) : c.text ≠ "" := by
  unfold fallbackTextExtraction at hc
  obtain ⟨page, _, hmem⟩ := List.mem_flatMap.mp hc
  dsimp only at hmem
  split at hmem
  · exact absurd hmem (by simp)
  · split at hmem
    · exact splitLongPageAux_text_ne _ _ _ _ (by simp) c hmem
    · rename_i hblank _
      rcases List.mem_singleton.mp hmem with rfl
      exact hblank

/-- Chunks of the simple pdfminer fallback have non-empty text. -/
theorem simpleFallbackExtraction_text_ne (pages : List PageData) (c : Chunk)
    (hc : c ∈ simpleFallbackExtraction pages) : c.text ≠ "" := by
  unfold simpleFallbackExtraction at hc
  obtain ⟨page, _, hmem⟩ := List.mem_filterMap.mp hc
  dsimp only at hmem
  split at hmem
  · exact absurd hmem (by simp)
  · rename_i hblank
    injection hmem with hmem
    subst hmem
    exact hblank

/-- Every chunk surviving post-processing has at least 50 characters of
stripped text. -/
theorem postProcessChunks_min_length (l : List Chunk) (c : Chunk)
    (hc : c ∈ postProcessChunks l) : 50 ≤ c.text.pyStrip.length := by
  unfold postProcessChunks at hc
  split at hc
  · rename_i hemp
    rw [List.isEmpty_iff.mp hemp] at hc
    exact absurd hc (by simp)
  · rw [List.mem_mergeSort] at hc
    obtain ⟨chunk, _, hsome⟩ := List.mem_filterMap.mp hc
    unfold postProcessOne at hsome
    dsimp only at hsome
    split at hsome
    · exact absurd hsome (by simp)
    · rename_i hlen
      injection hsome with hsome
      subst hsome
      dsimp only
      omega

/-! ### C8 — chunk-text invariants across extraction paths -/

/-- C8 counterexample: a document whose single outline section holds 8
characters of text takes the fast path and returns that 8-character
chunk as-is; the 50-character minimum applies only to the
post-processing of the general pipeline. -/
theorem minLength_claim_counterexample :
    shortSectionDoc.toc ≠ [] ∧
    (getTextChunks (fun _ => []) (fun _ => []) shortSectionDoc).map
      (fun c => c.text.length) = [8] ∧
    (8 : Nat) < 50 :=
  ⟨by decide, by decide, by decide⟩

/-- C8 (amended): every chunk returned by `get_text_chunks` has
non-empty text on every extraction path, and every chunk surviving
`_post_process_chunks` (the general-pipeline path) additionally has at
least 50 characters of stripped text; the embedded-outline fast path
and the fallback paths guarantee only non-emptiness, not the minimum
length. -/
theorem chunkText_invariants
    (featExtract : List PageData → List (List LineFeatures))
    (classify : List (List LineFeatures) → List (List String))
    (doc : PdfDoc) :
    (∀ c ∈ getTextChunks featExtract classify doc, c.text ≠ "") ∧
    (∀ (l : List Chunk) (c : Chunk), c ∈ postProcessChunks l →
      50 ≤ c.text.pyStrip.length) ∧
    (∀ (pages : List PageData) (c : Chunk), c ∈ simpleFallbackExtraction pages →
      c.text ≠ "") := by
  refine ⟨?_, postProcessChunks_min_length, simpleFallbackExtraction_text_ne⟩
  intro c hc
  unfold getTextChunks at hc
  split at hc
  · rw [extractChunksFromToc] at hc
    obtain ⟨i, _, hsome⟩ := List.mem_filterMap.mp hc
    exact entryChunk_text_ne doc doc.toc i c hsome
  · dsimp only at hc
    split at hc
    · exact absurd hc (by simp)
    · split at hc
      · exact fallbackTextExtraction_text_ne _ c hc
      · have h50 := postProcessChunks_min_length _ c hc
        intro hempty
        rw [hempty] at h50
        exact absurd h50 (by decide)

/-- C8 witness: the fast-path chunk of the three-page outline document
is non-empty, by the amended invariant. -/
theorem chunkText_invariants_witness :
    ((getTextChunks (fun _ => []) (fun _ => []) threePageTocDoc).getD 0
      default).text ≠ "" :=
  (chunkText_invariants (fun _ => []) (fun _ => []) threePageTocDoc).1 _
    (by decide)

/-! ### C4 — rule-based line classification -/

/-- C4 counterexample: a bold centred line with modal font size scores
7, inside the claimed lower-confidence band `[6, 8)`, yet it is
classified `H1`, not `Heading-3`: `_determine_heading_level` never reads
its `default='H3'` argument, so the centring tier wins. -/
theorem classify_claim_counterexample :
    headingScore sampleMidScoreLine = 7 ∧
    classifyLineRuleBased sampleMidScoreLine = "H1" :=
  ⟨by decide, by decide⟩

/-- C4 (amended): subject to the guard rules (blank, longer than 200
characters, at most 3 characters, or a bare page number always yield
Paragraph), a line with heading score at least 8 becomes a heading whose
level is chosen by numeric-prefix depth if present and otherwise by
font-rank/centering tiers; a line with score in `[6, 8)` has its level
chosen by exactly the same rule (the `default='H3'` argument is ignored,
H3 being only the final tier fallback); and a line scoring below 6 is a
Paragraph. -/
theorem classify_thresholds_amended (f : LineFeatures)
    (hne : f.text.pyStrip ≠ "") (hlong : f.text.pyStrip.length ≤ 200)
    (hshort : 3 < f.text.pyStrip.length)
    (hbare : isBareNumber f.text.pyStrip = false) :
    (8 ≤ headingScore f → classifyLineRuleBased f = determineHeadingLevel f) ∧
    (6 ≤ headingScore f → headingScore f < 8 →
      classifyLineRuleBased f = determineHeadingLevel f "H3") ∧
    (headingScore f < 6 → classifyLineRuleBased f = "P") ∧
    determineHeadingLevel f "H3" = determineHeadingLevel f ∧
    (numericDepth f.text = some 1 → determineHeadingLevel f = "H1") ∧
    (numericDepth f.text = some 2 → determineHeadingLevel f = "H2") ∧
    (∀ d, numericDepth f.text = some (d + 3) → determineHeadingLevel f = "H3") ∧
    (classifyLineRuleBased f = "P" ∨ classifyLineRuleBased f = "H1" ∨
      classifyLineRuleBased f = "H2" ∨ classifyLineRuleBased f = "H3") := by
  have hg1 : ¬ (f.text.pyStrip = "" ∨ 200 < f.text.pyStrip.length) := by
    push_neg
    exact ⟨hne, by omega⟩
  have hg2 : ¬ f.text.pyStrip.length ≤ 3 := by omega
  have hg3 : ¬ isBareNumber f.text.pyStrip = true := by simp [hbare]
  have hcl : classifyLineRuleBased f =
      (if 8 ≤ headingScore f then determineHeadingLevel f
       else if 6 ≤ headingScore f then determineHeadingLevel f "H3" else "P") := by
    simp only [classifyLineRuleBased]
    rw [if_neg hg1, if_neg hg2, if_neg hg3]
  have hlevels : determineHeadingLevel f = "H1" ∨ determineHeadingLevel f = "H2" ∨
      determineHeadingLevel f = "H3" := by
    unfold determineHeadingLevel
    rcases hnum : numericDepth f.text with _ | n
    · split_ifs <;> simp
    · match n with
      | 0 => simp
      | 1 => simp
      | 2 => simp
      | (d + 3) => simp
  refine ⟨?_, ?_, ?_, rfl, ?_, ?_, ?_, ?_⟩
  · intro h
    rw [hcl, if_pos h]
  · intro h6 h8
    rw [hcl, if_neg (by omega), if_pos h6]
  · intro h
    rw [hcl, if_neg (by omega), if_neg (by omega)]
  · intro h
    unfold determineHeadingLevel
    rw [h]
  · intro h
    unfold determineHeadingLevel
    rw [h]
  · intro d h
    unfold determineHeadingLevel
    rw [h]
    rfl
  · rw [hcl]
    split_ifs
    · tauto
    · have : determineHeadingLevel f "H3" = determineHeadingLevel f := rfl
      rw [this]
      tauto
    · tauto

/-- C4 witness: the amended theorem applied to a top-ranked bold centred
line whose score is 10, classified by the level rule (here `H1`). -/
theorem classify_thresholds_amended_witness :
    8 ≤ headingScore sampleHighScoreLine ∧
    classifyLineRuleBased sampleHighScoreLine =
      determineHeadingLevel sampleHighScoreLine :=
  ⟨by decide,
   (classify_thresholds_amended sampleHighScoreLine (by decide) (by decide)
      (by decide) (by decide)).1 (by decide)⟩

/-! ### C6 — header/footer suppression -/

/-- C6 counterexample: in a two-page document the header-zone text
`Acme Corporation` (longer than 3 characters) occurs on 1 of 2 pages —
50% of the pages, at least the claimed 40% — yet it is kept, because the
code requires `max(2, int(0.4 * pages))` candidate occurrences and that
floor of 2 is not met. -/
theorem headerFooter_claim_counterexample :
    2 ≤ twoPageData.length ∧
    isHeaderFooterCandidate headerBlock = true ∧
    3 < (normKey headerBlock.text).length ∧
    candFreq twoPageData (normKey headerBlock.text) = 1 ∧
    (twoPageData.length : ℚ) * (40/100) ≤ 1 ∧
    headerBlock ∈ ((filterHeadersFooters twoPageData).getD 0 default).blocks := by
  have h1 : isHeaderFooterCandidate headerBlock = true := by
    norm_num [isHeaderFooterCandidate, headerBlock]
  have h2 : isHeaderFooterCandidate bodyBlock0 = false := by
    norm_num [isHeaderFooterCandidate, bodyBlock0]
  have h3 : isHeaderFooterCandidate bodyBlock1 = false := by
    norm_num [isHeaderFooterCandidate, bodyBlock1]
  have hkeys : countedKeys twoPageData = [normKey headerBlock.text] := by
    simp only [countedKeys, twoPageData, List.flatMap, List.map_cons, List.map_nil,
      List.filter_cons, List.filter_nil, h1, h2, h3]
    decide
  have hfreq : candFreq twoPageData (normKey headerBlock.text) = 1 := by
    rw [candFreq, hkeys]
    decide
  have hrec : isRecurringText twoPageData (normKey headerBlock.text) = false := by
    simp only [isRecurringText, hfreq]
    decide
  have hrecB : isRecurringText twoPageData (normKey bodyBlock0.text) = false := by
    simp only [isRecurringText, candFreq, hkeys]
    decide
  refine ⟨by decide, h1, by decide, hfreq, by norm_num [twoPageData], ?_⟩
  simp only [filterHeadersFooters]
  rw [if_neg (by decide : ¬ twoPageData.length < 2)]
  simp only [twoPageData] at hrec hrecB ⊢
  simp [List.filter_cons, hrec, hrecB]

/-- C6 (amended): for every document of at least two pages, the
recurrence threshold is `max(2, floor(0.4 * page_count))` occurrences
among header/footer candidate blocks (top 15% / bottom 15% of a page,
case-insensitive, length > 3); every block whose normalised text meets
it is removed from every page, and every block below it is kept in
place. -/
theorem filterHeadersFooters_amended (pages : List PageData)
    (h2 : 2 ≤ pages.length) :
    (filterHeadersFooters pages).length = pages.length ∧
    recurThreshold pages = max 2 (2 * pages.length / 5) ∧
    (∀ pg ∈ filterHeadersFooters pages, ∀ b ∈ pg.blocks,
      candFreq pages (normKey b.text) < recurThreshold pages) ∧
    (∀ (i : Nat) (pg : PageData) (b : Block), pages[i]? = some pg → b ∈ pg.blocks →
      candFreq pages (normKey b.text) < recurThreshold pages →
      ∃ pg', (filterHeadersFooters pages)[i]? = some pg' ∧ b ∈ pg'.blocks) := by
  have hno : ¬ pages.length < 2 := by omega
  have hunf : filterHeadersFooters pages = pages.map fun pg =>
      { pg with blocks := pg.blocks.filter fun b =>
          ¬ isRecurringText pages (normKey b.text) } := by
    rw [filterHeadersFooters, if_neg hno]
  refine ⟨by rw [hunf, List.length_map], rfl, ?_, ?_⟩
  · intro pg hpg b hb
    rw [hunf] at hpg
    obtain ⟨pg0, _, rfl⟩ := List.mem_map.mp hpg
    have := (List.mem_filter.mp hb).2
    simp only [decide_eq_true_eq, isRecurringText, decide_eq_true_eq, not_le] at this
    exact this
  · intro i pg b hget hb hfreq
    rw [hunf]
    refine ⟨{ pg with blocks := pg.blocks.filter fun b =>
        ¬ isRecurringText pages (normKey b.text) }, ?_, ?_⟩
    · simp [List.getElem?_map, hget]
    · refine List.mem_filter.mpr ⟨hb, ?_⟩
      simp only [decide_eq_true_eq, isRecurringText, decide_eq_true_eq, not_le]
      exact hfreq

/-- C6 witness: the amended theorem applied to the two-page document,
whose non-recurring blocks are all kept. -/
theorem filterHeadersFooters_amended_witness :
    (filterHeadersFooters twoPageData).length = twoPageData.length :=
  (filterHeadersFooters_amended twoPageData (by decide)).1

end SynapseDocs
